import Mathlib

set_option maxRecDepth 40000

/-!
Verification of the analytics helpers of the transaction-analyzer UI.

The source is a single React file; the functions verified here are its pure
"Helpers" section: `parseSummaryLine`, `extractMonthCategoryAmounts`,
`computePeriodCategoryPercentages`, `computeMonthCategoryPercentages`,
`buildCategoryTrendsChart`, `computeCategoryTotals`, `buildCategoryColorMap`,
`makePieColors`, `computeTopRecurringTransactions` and
`computeIdenticalRecurringTransactions`.

Modelling conventions:
* JavaScript numbers are modelled as `ℚ` (the program only parses decimal
  literals and applies `+`, `*`, `/`, `Math.round`, comparisons).
* JavaScript objects used as string-keyed maps (`Record<string, T>`) are
  modelled as association lists in insertion order; `Object.entries` /
  `Object.values` iterate in that order (category and merchant keys in this
  data are not array-index-like, so JS property order is insertion order).
* `Array.prototype.sort(cmp)` for a consistent comparator is, per ECMA-262, a
  stable sort whose output is ordered by the comparator; a stable sort's
  output is unique, so it is modelled by `List.insertionSort r` where
  `r a b` means `cmp a b ≤ 0`.
* A thrown `TypeError` (member access on `undefined`) is modelled by an
  `Option`-valued function returning `none`.
-/

/-- The character class matched by JavaScript `\s` (also the set trimmed by
`String.prototype.trim`): ASCII blanks, NBSP, and the Unicode space and line
separators. -/
def jsWhitespace (c : Char) : Bool :=
  c == ' ' || c == '\t' || c == '\n' || c.toNat == 13 || c.toNat == 11 ||
  c.toNat == 12 || c.toNat == 0xa0 || c.toNat == 0x1680 ||
  (0x2000 ≤ c.toNat && c.toNat ≤ 0x200a) || c.toNat == 0x2028 ||
  c.toNat == 0x2029 || c.toNat == 0x202f || c.toNat == 0x205f ||
  c.toNat == 0x3000 || c.toNat == 0xfeff

/-- JS `String.prototype.trim`: strip leading and trailing whitespace. -/
def jsTrim (cs : List Char) : List Char :=
  ((cs.dropWhile jsWhitespace).reverse.dropWhile jsWhitespace).reverse

/-- Longest prefix of characters satisfying `p`, with the remainder
(the behaviour of a greedy character-class quantifier in a regex). -/
def spanP (p : Char → Bool) : List Char → List Char × List Char
  | [] => ([], [])
  | c :: rest =>
    if p c then
      let (taken, left) := spanP p rest
      (c :: taken, left)
    else ([], c :: rest)

/-- Numeric value of a string of decimal digit characters
(`Number` applied to the digits captured by `\d+`). -/
def digitsToNat (ds : List Char) : ℕ :=
  ds.foldl (fun a c => a * 10 + (c.toNat - 48)) 0

/-- Consume `pat` (given in lower case) case-insensitively from the front of
`cs`; return the rest on success. -/
def matchCI (pat : List Char) (cs : List Char) : Option (List Char) :=
  match pat, cs with
  | [], rest => some rest
  | _ :: _, [] => none
  | p :: ps, c :: rest => if c.toLower == p then matchCI ps rest else none

/-- One attempt of the regex `/spent\s+(-?\d+(?:\.\d+)?)\s+euros?/i` anchored
at the start of `cs`; returns the captured number on success.  Greedy
maximal-munch is faithful here: shortening `\s+` or `\d+` can never make a
failed attempt succeed (the following atom always rejects the character that
the shortened quantifier would leave behind), and a `.` not followed by a
digit makes the attempt fail because the optional group then matches empty
and `\s+` rejects the `.`. -/
def spentMatchAt (cs : List Char) : Option ℚ :=
  match matchCI ("spent".data) cs with
  | none => none
  | some r1 =>
    let (ws1, r2) := spanP jsWhitespace r1
    if ws1.isEmpty then none else
    let signRest : Bool × List Char :=
      match r2 with
      | '-' :: rest => (true, rest)
      | _ => (false, r2)
    let neg := signRest.1
    let (ds, r4) := spanP Char.isDigit signRest.2
    if ds.isEmpty then none else
    let afterNumber : Option (ℚ × List Char) :=
      match r4 with
      | '.' :: r5 =>
        let (fs, r6) := spanP Char.isDigit r5
        if fs.isEmpty then none
        else some ((digitsToNat ds : ℚ) + (digitsToNat fs : ℚ) / (10 : ℚ) ^ fs.length, r6)
      | _ => some ((digitsToNat ds : ℚ), r4)
    match afterNumber with
    | none => none
    | some (value, r7) =>
      let (ws2, r8) := spanP jsWhitespace r7
      if ws2.isEmpty then none else
      match matchCI ("euro".data) r8 with
      | none => none
      | some _ => some (if neg then -value else value)

/-- JS `RegExp.prototype.exec`: try the pattern at every start position, left to
right, and return the first captured amount. -/
def findSpentAmount : List Char → Option ℚ
  | [] => none
  | c :: rest =>
    match spentMatchAt (c :: rest) with
    | some v => some v
    | none => findSpentAmount rest

/-- JS `String.prototype.indexOf` (first occurrence of `pat`, scanning from
index `i`). -/
def findFrom (pat : List Char) : List Char → ℕ → Option ℕ
  | [], i => if pat.isEmpty then some i else none
  | c :: rest, i =>
    if pat.isPrefixOf (c :: rest) then some i else findFrom pat rest (i + 1)

/-- JS `String.prototype.lastIndexOf` (last occurrence of `pat`); `acc` carries
the latest occurrence seen so far. -/
def findLastFrom (pat : List Char) : List Char → ℕ → Option ℕ → Option ℕ
  | [], i, acc => if pat.isEmpty then some i else acc
  | c :: rest, i, acc =>
    findLastFrom pat rest (i + 1) (if pat.isPrefixOf (c :: rest) then some i else acc)

/-- Result of `parseSummaryLine`: merchant name and amount. -/
structure SummaryParse where
  name : String
  amount : ℚ
deriving DecidableEq

/-- Source `parseSummaryLine`: parse analyzer summary lines like
"spent 28.33 euros in Paytrail Oyj DNA Oyj Mobiilipa on Tue Dec 09 2025".
The amount comes from `/spent\s+(-?\d+(?:\.\d+)?)\s+euros?/i`; the merchant
name is the slice of the original line after the first case-insensitive
`" in "` and before the last case-insensitive `" on "` of that remainder
(`line.toLowerCase()` preserves ASCII indices), trimmed; empty name rejects. -/
def parseSummaryLine (line : String) : Option SummaryParse :=
  match findSpentAmount line.data with
  | none => none
  | some amount =>
    match findFrom (" in ".data) (line.data.map Char.toLower) 0 with
    | none => none
    | some inIdx =>
      let afterIn := line.data.drop (inIdx + 4)
      let beforeOn :=
        match findLastFrom (" on ".data) (afterIn.map Char.toLower) 0 none with
        | none => afterIn
        | some onIdx => afterIn.take onIdx
      let name := jsTrim beforeOn
      if name.isEmpty then none else some ⟨String.mk name, amount⟩

/-- The §4.1 algorithm of the specification, written step by step from its
wording: (1) require the phrase "spent <number> euro(s)" (case-insensitive
keyword matching), else reject; (2) locate the first occurrence of the token
" in ", else reject; (3) take everything after it; (4) cut at the last
occurrence of " on " within that remainder, or keep the whole remainder;
(5) trim whitespace and reject an empty name; return the name with the
parsed amount. -/
def parseSummaryLineSpec (line : String) : Option SummaryParse :=
  (findSpentAmount line.data).bind fun amount =>
    (findFrom (" in ".data) (line.data.map Char.toLower) 0).bind fun inIdx =>
      let remainder := line.data.drop (inIdx + 4)
      let merchantPart :=
        match findLastFrom (" on ".data) (remainder.map Char.toLower) 0 none with
        | some onIdx => remainder.take onIdx
        | none => remainder
      let merchant := jsTrim merchantPart
      if merchant.isEmpty then none else some ⟨String.mk merchant, amount⟩

theorem parseSummaryLine_eq_spec (line : String) :
    parseSummaryLine line = parseSummaryLineSpec line := by
  unfold parseSummaryLine parseSummaryLineSpec
  cases findSpentAmount line.data with
  | none => rfl
  | some amount =>
    cases findFrom (" in ".data) (line.data.map Char.toLower) 0 with
    | none => rfl
    | some inIdx =>
      simp only [Option.some_bind]
      cases findLastFrom (" on ".data) ((line.data.drop (inIdx + 4)).map Char.toLower) 0 none <;> rfl

/-- C3: `parseSummaryLine` implements exactly the specified algorithm —
require the "spent <number> euro(s)" phrase, cut at the first " in " and the
last " on " of the remainder, trim, reject an empty name, return the name
with the parsed amount; on the reference line it yields the Paytrail merchant
with amount 28.33, and a line without the phrase yields none. -/
theorem C3_parseSummaryLine_implements_spec_algorithm :
    (∀ line : String, parseSummaryLine line = parseSummaryLineSpec line) ∧
    parseSummaryLine ("spent 28.33 euros in Paytrail Oyj DNA Oyj Mobiilipa on Tue Dec 09 2025") =
      some ⟨"Paytrail Oyj DNA Oyj Mobiilipa", (2833 : ℚ) / 100⟩ ∧
    parseSummaryLine ("no spent keyword here") = none := by
  refine ⟨parseSummaryLine_eq_spec, ?_, ?_⟩
  · simp +decide [parseSummaryLine, findSpentAmount, spentMatchAt, matchCI, spanP,
      digitsToNat, findFrom, findLastFrom, jsTrim, jsWhitespace]
    norm_num
  · simp +decide [parseSummaryLine, findSpentAmount, spentMatchAt, matchCI, spanP,
      digitsToNat, findFrom, findLastFrom, jsTrim, jsWhitespace]

/-- C10, counterexample: in "a in b on spent 5 euros" a " in " token occurs
(at index 1) before the word "spent" (at index 10), the line parses, and yet
the returned merchant name is "b", which does not contain the
"spent … euros" phrase (not even the word "spent"). -/
theorem C10_counterexample_name_can_exclude_phrase :
    parseSummaryLine ("a in b on spent 5 euros") = some ⟨"b", (5 : ℚ)⟩ ∧
    findFrom (" in ".data) ("a in b on spent 5 euros".data.map Char.toLower) 0 = some 1 ∧
    findFrom ("spent".data) ("a in b on spent 5 euros".data.map Char.toLower) 0 = some 10 ∧
    findFrom ("spent".data) ("b".data) 0 = none := by
  refine ⟨?_, by decide, by decide, by decide⟩
  simp +decide [parseSummaryLine, findSpentAmount, spentMatchAt, matchCI, spanP,
    digitsToNat, findFrom, findLastFrom, jsTrim, jsWhitespace]

/-- C10 (amended): `parseSummaryLine` locates the first " in " over the
entire line, not only after the matched phrase — "logged in spent 5 euros in
X on Mon Jan 01 2024" parses to name "spent 5 euros in X" with amount 5
(the name contains the phrase); but when the remainder after that first
" in " contains a " on " before the phrase, the merchant name is cut before
the phrase and excludes it ("a in b on spent 5 euros" → name "b"). -/
theorem C10_first_in_searched_over_entire_line :
    parseSummaryLine ("logged in spent 5 euros in X on Mon Jan 01 2024") =
      some ⟨"spent 5 euros in X", (5 : ℚ)⟩ ∧
    parseSummaryLine ("a in b on spent 5 euros") = some ⟨"b", (5 : ℚ)⟩ := by
  constructor <;>
    simp +decide [parseSummaryLine, findSpentAmount, spentMatchAt, matchCI, spanP,
      digitsToNat, findFrom, findLastFrom, jsTrim, jsWhitespace]

-- -------------------- Data model --------------------

/-- Source `CategoryInfo`: a numeric amount, a pre-computed percentage, and an
optional map from a transaction key to a free-text summary line. -/
structure CategoryInfo where
  amount : ℚ
  percentage : ℚ
  transactions : Option (List (String × String))
deriving DecidableEq

/-- Source `MonthlyExpense`: a month label, a formatted total, and an optional
map from category name to `CategoryInfo`. -/
structure MonthlyExpense where
  month : String
  sum : String
  categories : Option (List (String × CategoryInfo))
deriving DecidableEq

-- -------------------- String-keyed objects --------------------

/-- Property lookup `obj[k]` on a JS object modelled as an association list
(`some` the stored value, `none` for `undefined`). -/
def getEntry {β : Type} : List (String × β) → String → Option β
  | [], _ => none
  | (k', v) :: rest, k => if k' == k then some v else getEntry rest k

/-- Lookup with default, `obj[k] ?? d`. -/
def getD {β : Type} (m : List (String × β)) (k : String) (d : β) : β :=
  (getEntry m k).getD d

/-- Property write `obj[k] = v`: an existing key keeps its position in the
enumeration order, a new key is appended (JS property order). -/
def setEntry {β : Type} : List (String × β) → String → β → List (String × β)
  | [], k, v => [(k, v)]
  | (k', v') :: rest, k, v =>
    if k' == k then (k', v) :: rest else (k', v') :: setEntry rest k v

-- -------------------- CategoryAggregator --------------------

/-- Source `extractMonthCategoryAmounts`: convert a month's `categories` map
(absent map ↦ empty) into a `{ category -> amount }` object. -/
def extractMonthCategoryAmounts (m : MonthlyExpense) : List (String × ℚ) :=
  (m.categories.getD []).foldl (fun out e => setEntry out e.1 e.2.amount) []

/-- One iteration of the source's totals loop:
`totals[cat] = (totals[cat] ?? 0) + amount` over one month. -/
def addCategoryAmounts (totals : List (String × ℚ)) (m : MonthlyExpense) :
    List (String × ℚ) :=
  (extractMonthCategoryAmounts m).foldl
    (fun t e => setEntry t e.1 (getD t e.1 0 + e.2)) totals

/-- Derived row of the percentage table. -/
structure CategoryPercentageRow where
  category : String
  total : ℚ
  percent : ℚ
deriving DecidableEq

/-- The order produced by the comparator `(a, b) => b[1] - a[1]`:
`a` may precede `b` exactly when the comparator is `≤ 0`. -/
def totalDesc (a b : String × ℚ) : Prop := b.2 ≤ a.2

instance : DecidableRel totalDesc :=
  fun a b => inferInstanceAs (Decidable (b.2 ≤ a.2))

instance : IsTotal (String × ℚ) totalDesc :=
  ⟨fun a b => le_total b.2 a.2⟩

instance : IsTrans (String × ℚ) totalDesc :=
  ⟨fun _ _ _ h1 h2 => le_trans h2 h1⟩

/-- The retained entries, `Object.entries(totals).filter(([, v]) => v > 0).sort((a, b) => b[1] - a[1])`
(stable sort by descending total). -/
def positiveSortedEntries (totals : List (String × ℚ)) : List (String × ℚ) :=
  List.insertionSort totalDesc (totals.filter fun e => decide (0 < e.2))

/-- The shared tail of both percentage functions: grand total of the retained
entries (`entries.reduce((acc, [, v]) => acc + v, 0)`) and the row mapping. -/
def percentageRows (entries : List (String × ℚ)) : List CategoryPercentageRow :=
  let grandTotal := entries.foldl (fun acc e => acc + e.2) 0
  entries.map fun e =>
    ⟨e.1, e.2, if 0 < grandTotal then e.2 / grandTotal * 100 else 0⟩

/-- Source `computePeriodCategoryPercentages`: totals across all months, keep
positive totals, sort descending, derive percents. -/
def computePeriodCategoryPercentages (monthlyExpenses : List MonthlyExpense) :
    List CategoryPercentageRow :=
  percentageRows (positiveSortedEntries (monthlyExpenses.foldl addCategoryAmounts []))

/-- Source `computeMonthCategoryPercentages`.  The month is
`monthlyExpenses.find(m => m.month === selectedMonth) ?? monthlyExpenses[0]`;
when `monthlyExpenses` is empty that is `undefined` and
`extractMonthCategoryAmounts(undefined)` throws a `TypeError`, modelled by
`none`. -/
def computeMonthCategoryPercentages (monthlyExpenses : List MonthlyExpense)
    (selectedMonth : String) : Option (List CategoryPercentageRow) :=
  match (monthlyExpenses.find? fun m => m.month == selectedMonth).orElse
      (fun _ => monthlyExpenses.head?) with
  | none => none
  | some monthObj =>
    some (percentageRows (positiveSortedEntries (extractMonthCategoryAmounts monthObj)))

-- -------------------- Aggregation lemmas --------------------

theorem foldl_add_snd (l : List (String × ℚ)) (a : ℚ) :
    l.foldl (fun acc e => acc + e.2) a = a + (l.map (·.2)).sum := by
  induction l generalizing a with
  | nil => simp
  | cons e rest ih => simp [ih, add_assoc]

theorem positiveSortedEntries_sorted (totals : List (String × ℚ)) :
    List.Sorted totalDesc (positiveSortedEntries totals) :=
  List.sorted_insertionSort totalDesc _

theorem mem_positiveSortedEntries {totals : List (String × ℚ)} {e : String × ℚ} :
    e ∈ positiveSortedEntries totals ↔ e ∈ totals ∧ 0 < e.2 := by
  unfold positiveSortedEntries
  rw [(List.perm_insertionSort totalDesc _).mem_iff, List.mem_filter]
  simp

theorem percentageRows_sorted {entries : List (String × ℚ)}
    (h : List.Sorted totalDesc entries) :
    List.Sorted (fun r1 r2 : CategoryPercentageRow => r2.total ≤ r1.total)
      (percentageRows entries) :=
  List.Pairwise.map _ (fun _ _ hab => hab) h

theorem filter_total_orderedInsert (t : ℚ) (a : String × ℚ)
    (l : List (String × ℚ)) :
    (List.orderedInsert totalDesc a l).filter (fun e => decide (e.2 = t)) =
      if a.2 = t then a :: l.filter (fun e => decide (e.2 = t))
      else l.filter (fun e => decide (e.2 = t)) := by
  induction l with
  | nil =>
    by_cases ha : a.2 = t <;> simp [List.orderedInsert, List.filter_cons, ha]
  | cons b bs ih =>
    by_cases hr : totalDesc a b
    · by_cases ha : a.2 = t <;>
        simp [List.orderedInsert, hr, List.filter_cons, ha]
    · have hlt : a.2 < b.2 := not_le.mp (by simpa [totalDesc] using hr)
      by_cases ha : a.2 = t
      · have hbt : ¬ b.2 = t := by
          intro hbt
          rw [ha, ← hbt] at hlt
          exact lt_irrefl _ hlt
        simp [List.orderedInsert, hr, List.filter_cons, ha, hbt, ih]
      · by_cases hb : b.2 = t <;>
          simp [List.orderedInsert, hr, List.filter_cons, ha, hb, ih]

theorem filter_total_insertionSort (t : ℚ) (l : List (String × ℚ)) :
    (List.insertionSort totalDesc l).filter (fun e => decide (e.2 = t)) =
      l.filter (fun e => decide (e.2 = t)) := by
  induction l with
  | nil => rfl
  | cons a l ih =>
    rw [List.insertionSort, filter_total_orderedInsert, ih]
    by_cases ha : a.2 = t <;> simp [List.filter_cons, ha]

theorem filter_total_map_rows (g t : ℚ) (l : List (String × ℚ)) :
    (l.map fun e =>
        (⟨e.1, e.2, if 0 < g then e.2 / g * 100 else 0⟩ : CategoryPercentageRow)).filter
      (fun r => decide (r.total = t)) =
    (l.filter (fun e => decide (e.2 = t))).map fun e =>
      (⟨e.1, e.2, if 0 < g then e.2 / g * 100 else 0⟩ : CategoryPercentageRow) := by
  induction l with
  | nil => rfl
  | cons a l ih => by_cases ha : a.2 = t <;> simp [List.filter_cons, ha, ih]

/-- The dataset of the crafted tie: categories inserted as "B" then "A",
both totaling 50.00. -/
def exC1 : List MonthlyExpense :=
  [⟨"Dec 2025", "100 euros", some [("B", ⟨50, 0, none⟩), ("A", ⟨50, 0, none⟩)]⟩]

/-- C1, counterexample: on the crafted tie (categories "B" then "A" both
totaling 50.00) the rows come out "B" then "A" — the claimed ascending
lexical tie-break (expecting "A" then "B") does not hold. -/
theorem C1_counterexample_tie_keeps_insertion_order :
    (computePeriodCategoryPercentages exC1).map (·.category) = ["B", "A"] ∧
    (computePeriodCategoryPercentages exC1).map (·.category) ≠ ["A", "B"] := by
  constructor
  · simp +decide [computePeriodCategoryPercentages, percentageRows, positiveSortedEntries,
      addCategoryAmounts, extractMonthCategoryAmounts, exC1, setEntry, getD, getEntry,
      List.insertionSort, List.orderedInsert, totalDesc]
  · intro h
    rw [show (computePeriodCategoryPercentages exC1).map (·.category) = ["B", "A"] by
      simp +decide [computePeriodCategoryPercentages, percentageRows, positiveSortedEntries,
        addCategoryAmounts, extractMonthCategoryAmounts, exC1, setEntry, getD, getEntry,
        List.insertionSort, List.orderedInsert, totalDesc]] at h
    exact absurd h (by decide)

/-- C1 (amended): for every input the percentage rows are sorted descending
by total (non-strictly), and for every total value the categories having that
total appear in the rows in exactly the order of the retained (positive)
entries of the totals object — its iteration order, i.e. the order the
categories were first encountered during the scan — so categories with equal
totals keep first-encounter order; on the crafted tie with "B" inserted
before "A" (both 50.00) the rows are "B" then "A". -/
theorem C1_period_rows_sorted_desc_ties_first_encounter :
    (∀ ms : List MonthlyExpense,
      List.Sorted (fun r1 r2 : CategoryPercentageRow => r2.total ≤ r1.total)
        (computePeriodCategoryPercentages ms)) ∧
    (∀ (ms : List MonthlyExpense) (t : ℚ),
      ((computePeriodCategoryPercentages ms).filter
        (fun r => decide (r.total = t))).map (·.category) =
      (((ms.foldl addCategoryAmounts []).filter (fun e => decide (0 < e.2))).filter
        (fun e => decide (e.2 = t))).map (·.1)) ∧
    (computePeriodCategoryPercentages exC1).map (·.category) = ["B", "A"] := by
  refine ⟨?_, ?_, ?_⟩
  · intro ms
    exact percentageRows_sorted (positiveSortedEntries_sorted _)
  · intro ms t
    unfold computePeriodCategoryPercentages percentageRows positiveSortedEntries
    rw [filter_total_map_rows, filter_total_insertionSort, List.map_map]
    rfl
  · simp +decide [computePeriodCategoryPercentages, percentageRows, positiveSortedEntries,
      addCategoryAmounts, extractMonthCategoryAmounts, exC1, setEntry, getD, getEntry,
      List.insertionSort, List.orderedInsert, totalDesc]

/-- C7: whenever some category has a positive total the percent column sums
to exactly 100, and when none does the row list is empty. -/
theorem C7_percent_sums_to_100 (ms : List MonthlyExpense) :
    ((∃ e ∈ ms.foldl addCategoryAmounts [], 0 < e.2) →
      ((computePeriodCategoryPercentages ms).map (·.percent)).sum = 100) ∧
    ((∀ e ∈ ms.foldl addCategoryAmounts [], ¬ 0 < e.2) →
      computePeriodCategoryPercentages ms = []) := by
  constructor
  · rintro ⟨e, he, hpos⟩
    have hmem : e ∈ positiveSortedEntries (ms.foldl addCategoryAmounts []) :=
      mem_positiveSortedEntries.mpr ⟨he, hpos⟩
    set entries := positiveSortedEntries (ms.foldl addCategoryAmounts []) with hentries
    have hne : entries ≠ [] := List.ne_nil_of_mem hmem
    have hall : ∀ x ∈ entries.map (·.2), 0 < x := by
      intro x hx
      obtain ⟨p, hp, rfl⟩ := List.mem_map.mp hx
      exact (mem_positiveSortedEntries.mp hp).2
    have hg : 0 < (entries.map (·.2)).sum := by
      apply List.sum_pos _ hall
      simpa using hne
    unfold computePeriodCategoryPercentages percentageRows
    rw [← hentries, foldl_add_snd, zero_add, List.map_map]
    have : ((fun r : CategoryPercentageRow => r.percent) ∘ fun e : String × ℚ =>
        (⟨e.1, e.2, if 0 < (entries.map (·.2)).sum then
          e.2 / (entries.map (·.2)).sum * 100 else 0⟩ : CategoryPercentageRow)) =
        fun e : String × ℚ => e.2 * (100 / (entries.map (·.2)).sum) := by
      funext e
      simp only [Function.comp, if_pos hg]
      field_simp
    rw [this, List.sum_map_mul_right, mul_div_assoc']
    field_simp
  · intro hnone
    have : (ms.foldl addCategoryAmounts []).filter (fun e => decide (0 < e.2)) = [] := by
      apply List.filter_eq_nil_iff.mpr
      intro a ha
      simpa using hnone a ha
    unfold computePeriodCategoryPercentages positiveSortedEntries
    rw [this]
    rfl

/-- Dataset with a single positive category total, used to instantiate C7. -/
def exC7 : List MonthlyExpense :=
  [⟨"Jan 2026", "30 euros", some [("A", ⟨30, 0, none⟩)]⟩]

theorem C7_percent_sums_to_100_witness :
    ((computePeriodCategoryPercentages exC7).map (·.percent)).sum = 100 := by
  apply (C7_percent_sums_to_100 exC7).1
  refine ⟨("A", (30 : ℚ)), ?_, by norm_num⟩
  simp +decide [exC7, addCategoryAmounts, extractMonthCategoryAmounts, setEntry, getD, getEntry]

/-- C2, counterexample: with an empty `monthlyExpenses` list the month-view
percentage computation dereferences `undefined` (a thrown `TypeError`,
modelled as `none`) for every selected month. -/
theorem C2_counterexample_empty_months_throws :
    computeMonthCategoryPercentages [] ("Jan 2026") = none := rfl

/-- C2 (amended): for every AnalysisResult with a nonempty `monthlyExpenses`
list the month-view percentage computation returns a value (no exception),
and when the selected month is not present it falls back to the first month
in the dataset; with an empty list it throws instead. -/
theorem C2_month_view_total_on_nonempty_and_fallback
    (m : MonthlyExpense) (rest : List MonthlyExpense) (sel : String) :
    (computeMonthCategoryPercentages (m :: rest) sel).isSome = true ∧
    (sel ∉ (m :: rest).map (·.month) →
      computeMonthCategoryPercentages (m :: rest) sel =
        computeMonthCategoryPercentages (m :: rest) m.month) := by
  constructor
  · unfold computeMonthCategoryPercentages
    cases h : (m :: rest).find? fun x => x.month == sel with
    | none => simp [h, Option.orElse]
    | some mo => simp [h, Option.orElse]
  · intro hnot
    have hfind : ((m :: rest).find? fun x => x.month == sel) = none := by
      apply List.find?_eq_none.mpr
      intro x hx
      simp only [beq_iff_eq]
      intro hEq
      exact hnot (List.mem_map.mpr ⟨x, hx, hEq⟩)
    have hfind2 : ((m :: rest).find? fun x => x.month == m.month) = some m := by
      rw [List.find?_cons_of_pos]
      simp
    unfold computeMonthCategoryPercentages
    rw [hfind, hfind2]
    rfl

/-- A month used to instantiate C2's fallback behaviour. -/
def exC2month : MonthlyExpense :=
  ⟨"Dec 2025", "50 euros", some [("A", ⟨50, 0, none⟩)]⟩

theorem C2_month_view_total_on_nonempty_and_fallback_witness :
    (computeMonthCategoryPercentages [exC2month] ("Nope")).isSome = true ∧
    computeMonthCategoryPercentages [exC2month] ("Nope") =
      computeMonthCategoryPercentages [exC2month] ("Dec 2025") := by
  have h := C2_month_view_total_on_nonempty_and_fallback exC2month [] ("Nope")
  refine ⟨h.1, ?_⟩
  have h2 := h.2 (by simp +decide [exC2month])
  simpa [exC2month] using h2

-- -------------------- Number rendering and rounding --------------------

/-- JS `Math.round`: round half toward positive infinity. -/
def jsRound (q : ℚ) : ℤ := ⌊q + 1 / 2⌋

/-- Decimal digits of `n`, least significant first; the fuel (any bound
greater than `n`) makes the recursion structural. -/
def lsdDigits : ℕ → ℕ → List ℕ
  | 0, _ => []
  | fuel + 1, n => if n = 0 then [] else n % 10 :: lsdDigits fuel (n / 10)

/-- Decimal rendering of a natural number, most significant digit first. -/
def natRepr (n : ℕ) : List Char :=
  if n = 0 then ['0']
  else (lsdDigits (n + 1) n).reverse.map fun d => Char.ofNat (48 + d)

/-- Decimal rendering of an integer (JS template interpolation `${i}`). -/
def intRepr (c : ℤ) : List Char :=
  (if c < 0 then ['-'] else []) ++ natRepr c.natAbs

-- -------------------- ColorAssigner --------------------

/-- Source `makePieColors`: `n` evenly spaced HSL colors,
`hsl(${Math.round((360 * i) / n)}, 70%, 60%)`. -/
def makePieColors (n : ℕ) : List String :=
  (List.range n).map fun (i : ℕ) =>
    "hsl(" ++ String.mk (intRepr (jsRound ((360 * i : ℚ) / n))) ++ ", 70%, 60%)"

/-- Source `computeCategoryTotals`: total spend per category across all
months (`totals[catName] = (totals[catName] ?? 0) + (Number(info.amount) || 0)`). -/
def computeCategoryTotals (monthlyExpenses : List MonthlyExpense) : List (String × ℚ) :=
  monthlyExpenses.foldl
    (fun totals m => (m.categories.getD []).foldl
      (fun t e => setEntry t e.1 (getD t e.1 0 + e.2.amount)) totals) []

/-- Order of the color-map comparator
`(a, b) => (totals[b] ?? 0) - (totals[a] ?? 0) || a.localeCompare(b)`:
total descending, ties by name ascending (`localeCompare` modelled as the
lexicographic string order). -/
def colorOrder (totals : List (String × ℚ)) (a b : String) : Prop :=
  getD totals b 0 < getD totals a 0 ∨ (getD totals a 0 = getD totals b 0 ∧ a ≤ b)

instance (totals : List (String × ℚ)) : DecidableRel (colorOrder totals) :=
  fun a b => inferInstanceAs
    (Decidable (getD totals b 0 < getD totals a 0 ∨
      (getD totals a 0 = getD totals b 0 ∧ a ≤ b)))

instance (totals : List (String × ℚ)) : IsTotal String (colorOrder totals) := by
  constructor
  intro a b
  rcases lt_trichotomy (getD totals a 0) (getD totals b 0) with h | h | h
  · exact Or.inr (Or.inl h)
  · rcases le_total a b with hab | hab
    · exact Or.inl (Or.inr ⟨h, hab⟩)
    · exact Or.inr (Or.inr ⟨h.symm, hab⟩)
  · exact Or.inl (Or.inl h)

instance (totals : List (String × ℚ)) : IsTrans String (colorOrder totals) := by
  constructor
  rintro a b c (h1 | ⟨h1, h1'⟩) (h2 | ⟨h2, h2'⟩)
  · exact Or.inl (h2.trans h1)
  · exact Or.inl (h2 ▸ h1)
  · exact Or.inl (h1 ▸ h2)
  · exact Or.inr ⟨h1.trans h2, h1'.trans h2'⟩

/-- The ranked category names of the color map: keys of the full-period
totals, sorted by the comparator above. -/
def categoryColorNames (monthlyExpenses : List MonthlyExpense) : List String :=
  List.insertionSort (colorOrder (computeCategoryTotals monthlyExpenses))
    ((computeCategoryTotals monthlyExpenses).map (·.1))

/-- The palette of the color map: `makePieColors(names.length || 1)`. -/
def colorMapPalette (monthlyExpenses : List MonthlyExpense) : List String :=
  makePieColors (if (categoryColorNames monthlyExpenses).length = 0 then 1
    else (categoryColorNames monthlyExpenses).length)

/-- Source `buildCategoryColorMap`: assign one palette color per rank
(`names.forEach((name, idx) => { map[name] = colors[idx]; })`). -/
def buildCategoryColorMap (monthlyExpenses : List MonthlyExpense) :
    List (String × String) :=
  (categoryColorNames monthlyExpenses).enum.foldl
    (fun map p => setEntry map p.2 ((colorMapPalette monthlyExpenses).getD p.1 (""))) []

/-- View mode of the `CategoryBreakdown` component. -/
inductive BreakdownMode
  | month
  | year
deriving DecidableEq

/-- The color map as used by the rendering call sites: computed from the full
`monthlyExpenses` only — the view mode is not an input of the computation. -/
def categoryColorsForView (monthlyExpenses : List MonthlyExpense)
    (_mode : BreakdownMode) : List (String × String) :=
  buildCategoryColorMap monthlyExpenses

-- -------------------- Association-list lemmas --------------------

theorem getEntry_setEntry_self {β : Type} (m : List (String × β)) (k : String) (v : β) :
    getEntry (setEntry m k v) k = some v := by
  induction m with
  | nil => simp [setEntry, getEntry]
  | cons e rest ih =>
    by_cases h : e.1 = k
    · simp [setEntry, getEntry, h]
    · simp [setEntry, getEntry, h, ih]

theorem getEntry_setEntry_ne {β : Type} (m : List (String × β)) {k k' : String} (v : β)
    (h : k' ≠ k) : getEntry (setEntry m k' v) k = getEntry m k := by
  induction m with
  | nil => simp [setEntry, getEntry, h]
  | cons e rest ih =>
    by_cases he : e.1 = k'
    · simp [setEntry, getEntry, he, h]
    · simp only [setEntry, beq_iff_eq, he, if_false, getEntry]
      by_cases he2 : e.1 = k <;> simp [he2, ih]

theorem keys_setEntry {β : Type} (m : List (String × β)) (k : String) (v : β) :
    (setEntry m k v).map (·.1) =
      if k ∈ m.map (·.1) then m.map (·.1) else m.map (·.1) ++ [k] := by
  induction m with
  | nil => simp [setEntry]
  | cons e rest ih =>
    by_cases h : e.1 = k
    · simp [setEntry, h]
    · have : ¬ k = e.1 := fun hk => h hk.symm
      simp only [setEntry, beq_iff_eq, h, if_false, List.map_cons, List.mem_cons, this,
        false_or, ih]
      by_cases hk : k ∈ rest.map (·.1) <;> simp [hk]

theorem nodupKeys_setEntry {β : Type} {m : List (String × β)} (k : String) (v : β)
    (h : (m.map (·.1)).Nodup) : ((setEntry m k v).map (·.1)).Nodup := by
  rw [keys_setEntry]
  by_cases hk : k ∈ m.map (·.1)
  · simpa [hk] using h
  · simp only [hk, if_false]
    exact List.Nodup.append h (List.nodup_singleton k) (by simpa using hk)

theorem nodupKeys_foldl_setEntry {β γ : Type} (key : γ → String)
    (val : γ → List (String × β) → β) (l : List γ) (init : List (String × β))
    (h : (init.map (·.1)).Nodup) :
    ((l.foldl (fun m x => setEntry m (key x) (val x m)) init).map (·.1)).Nodup := by
  induction l generalizing init with
  | nil => exact h
  | cons x xs ih => exact ih _ (nodupKeys_setEntry _ _ h)

theorem getEntry_foldl_setEntry_of_not_mem {β γ : Type} (key : γ → String)
    (val : γ → List (String × β) → β) (l : List γ) (init : List (String × β))
    {k : String} (hk : k ∉ l.map key) :
    getEntry (l.foldl (fun m x => setEntry m (key x) (val x m)) init) k =
      getEntry init k := by
  induction l generalizing init with
  | nil => rfl
  | cons x xs ih =>
    simp only [List.map_cons, List.mem_cons, not_or] at hk
    simp only [List.foldl_cons]
    rw [ih _ hk.2, getEntry_setEntry_ne _ _ (fun h => hk.1 h.symm)]

theorem getEntry_foldl_setEntry_of_nodup {β γ : Type} (key : γ → String)
    (val : γ → List (String × β) → β) (l : List γ) (init : List (String × β))
    (x : γ) (hx : x ∈ l) (hnodup : (l.map key).Nodup)
    (hval : ∀ m : List (String × β), val x m = val x init) :
    getEntry (l.foldl (fun m x => setEntry m (key x) (val x m)) init) (key x) =
      some (val x init) := by
  induction l generalizing init with
  | nil => cases hx
  | cons y ys ih =>
    simp only [List.map_cons, List.nodup_cons] at hnodup
    rcases List.mem_cons.mp hx with rfl | hx'
    · simp only [List.foldl_cons]
      rw [getEntry_foldl_setEntry_of_not_mem key val ys _ hnodup.1,
        getEntry_setEntry_self, hval]
    · have hky : key x ≠ key y := by
        intro h
        exact hnodup.1 (h ▸ List.mem_map_of_mem key hx')
      simp only [List.foldl_cons]
      have := ih (setEntry init (key y) (val y init)) hx' hnodup.2
        (fun m => (hval m).trans (hval (setEntry init (key y) (val y init))).symm)
      rw [this, hval]

-- -------------------- ColorAssigner lemmas (C6) --------------------

theorem nodupKeys_computeCategoryTotals (ms : List MonthlyExpense) :
    ((computeCategoryTotals ms).map (·.1)).Nodup := by
  unfold computeCategoryTotals
  have h0 : (([] : List (String × ℚ)).map (·.1)).Nodup := by simp
  generalize ([] : List (String × ℚ)) = init at h0 ⊢
  induction ms generalizing init with
  | nil => exact h0
  | cons m rest ih =>
    simp only [List.foldl_cons]
    exact ih _ (nodupKeys_foldl_setEntry (fun x : String × CategoryInfo => x.1)
      (fun (x : String × CategoryInfo) (t : List (String × ℚ)) =>
        getD t x.1 0 + x.2.amount) _ _ h0)

theorem nodup_categoryColorNames (ms : List MonthlyExpense) :
    (categoryColorNames ms).Nodup :=
  ((List.perm_insertionSort _ _).nodup_iff).mpr (nodupKeys_computeCategoryTotals ms)

theorem getD_makePieColors {n r : ℕ} (h : r < n) :
    (makePieColors n).getD r ("") =
      "hsl(" ++ String.mk (intRepr (jsRound ((360 * r : ℚ) / n))) ++ ", 70%, 60%)" := by
  unfold makePieColors
  rw [List.getD_eq_getElem?_getD, List.getElem?_map, List.getElem?_range h]
  rfl

/-- C6: the category of rank `r` (categories ordered by full-period total
descending, then name ascending) receives the color
`hsl(round(360·r/n), 70%, 60%)` with `n` the number of categories, and the
map used at the render sites does not depend on the view mode, so a
category's color is identical in month view and period view. -/
theorem C6_colorMap_rank_formula_and_view_invariance (ms : List MonthlyExpense)
    (r : ℕ) (h : r < (categoryColorNames ms).length) :
    getEntry (buildCategoryColorMap ms) ((categoryColorNames ms).get ⟨r, h⟩) =
      some ("hsl(" ++ String.mk (intRepr (jsRound
        ((360 * r : ℚ) / (categoryColorNames ms).length))) ++ ", 70%, 60%)") ∧
    List.Sorted (colorOrder (computeCategoryTotals ms)) (categoryColorNames ms) ∧
    ∀ mode1 mode2 : BreakdownMode,
      categoryColorsForView ms mode1 = categoryColorsForView ms mode2 := by
  refine ⟨?_, List.sorted_insertionSort _ _, fun _ _ => rfl⟩
  have hn0 : (categoryColorNames ms).length ≠ 0 := by omega
  have hx : ((r, (categoryColorNames ms).get ⟨r, h⟩) : ℕ × String) ∈
      (categoryColorNames ms).enum := by
    rw [List.mk_mem_enum_iff_getElem?]
    simp
  have hnodup : ((categoryColorNames ms).enum.map Prod.snd).Nodup := by
    rw [List.enum_map_snd]
    exact nodup_categoryColorNames ms
  have hmain := getEntry_foldl_setEntry_of_nodup Prod.snd
    (fun (p : ℕ × String) (_ : List (String × String)) => (colorMapPalette ms).getD p.1 (""))
    ((categoryColorNames ms).enum) [] (r, (categoryColorNames ms).get ⟨r, h⟩)
    hx hnodup (fun _ => rfl)
  have hmain2 : getEntry (buildCategoryColorMap ms) ((categoryColorNames ms).get ⟨r, h⟩) =
      some ((colorMapPalette ms).getD r ("")) := hmain
  rw [hmain2]
  unfold colorMapPalette
  rw [if_neg hn0, getD_makePieColors h]

/-- Dataset with two categories of distinct totals, to instantiate C6. -/
def exC6 : List MonthlyExpense :=
  [⟨"Jan 2026", "40 euros", some [("A", ⟨30, 0, none⟩), ("B", ⟨10, 0, none⟩)]⟩]

theorem exC6_one_lt_length : 1 < (categoryColorNames exC6).length := by
  simp +decide [categoryColorNames, List.length_insertionSort, computeCategoryTotals,
    setEntry, getD, getEntry, exC6]

theorem C6_colorMap_rank_formula_and_view_invariance_witness :
    getEntry (buildCategoryColorMap exC6)
        ((categoryColorNames exC6).get ⟨1, exC6_one_lt_length⟩) =
      some ("hsl(" ++ String.mk (intRepr (jsRound
        ((360 * (1 : ℕ) : ℚ) / (categoryColorNames exC6).length))) ++ ", 70%, 60%)") ∧
    List.Sorted (colorOrder (computeCategoryTotals exC6)) (categoryColorNames exC6) ∧
    ∀ mode1 mode2 : BreakdownMode,
      categoryColorsForView exC6 mode1 = categoryColorsForView exC6 mode2 :=
  C6_colorMap_rank_formula_and_view_invariance exC6 1 exC6_one_lt_length

-- -------------------- TrendBuilder --------------------

/-- The selected categories of the trends chart: sort the full-period totals
(accumulated over the chronologically ordered months) by descending total and
take the first `topN` names. -/
def trendsTopCats (monthlyExpenses : List MonthlyExpense) (topN : ℕ) : List String :=
  (((List.insertionSort totalDesc
    (monthlyExpenses.reverse.foldl addCategoryAmounts [])).take topN).map (·.1))

/-- Sum of the amounts of a month's non-selected categories. -/
def sumNonTop (topCats : List String) (m : MonthlyExpense) : ℚ :=
  (((extractMonthCategoryAmounts m).filter fun e => decide (e.1 ∉ topCats)).map (·.2)).sum

/-- Contribution of month `m` to the series named `name` in the fill loop
(`perMonth[cat][idx] += amount` / `perMonth["Other"][idx] += amount`): a
selected category receives its own amount for the month (category keys are
unique within the extracted map, so exactly one `+=` hits it), and the shared
"Other" array additionally receives every non-selected category's amount.
When a category is itself named "Other" both contributions land in the same
array, which this sum reproduces. -/
def trendsFill (topCats : List String) (m : MonthlyExpense) (name : String) : ℚ :=
  (if name ∈ topCats then getD (extractMonthCategoryAmounts m) name 0 else 0) +
  (if name = "Other" then sumNonTop topCats m else 0)

/-- The series (one value per month, oldest month first — the reverse of the
input order) that the fill loop produces for a given series name. -/
def trendsSeries (monthlyExpenses : List MonthlyExpense) (topN : ℕ)
    (name : String) : List ℚ :=
  monthlyExpenses.reverse.map fun m =>
    trendsFill (trendsTopCats monthlyExpenses topN) m name

/-- Source `buildCategoryTrendsChart`, reduced to the data it emits: the
labelled series of `datasets` (chart styling dropped).  Series names are
`[...topCats, "Other"]` filtered by `perMonth[n].some((v) => v > 0)`. -/
def buildCategoryTrendsChart (monthlyExpenses : List MonthlyExpense) (topN : ℕ) :
    List (String × List ℚ) :=
  ((trendsTopCats monthlyExpenses topN ++ ["Other"]).filter fun n =>
    (trendsSeries monthlyExpenses topN n).any fun v => decide (0 < v)).map
      fun n => (n, trendsSeries monthlyExpenses topN n)

/-- A dataset whose single category has only a negative amount. -/
def exC5neg : List MonthlyExpense :=
  [⟨"M1", "0 euros", some [("R", ⟨-5, 0, none⟩)]⟩]

/-- C5, counterexample: "R" is a selected top category and its series `[-5]`
is not entirely zero, yet the chart drops it (the filter keeps only series
with a strictly positive value), so "dropping only series that are entirely
zero" is false. -/
theorem C5_counterexample_nonzero_series_dropped :
    buildCategoryTrendsChart exC5neg 1 = [] ∧
    trendsTopCats exC5neg 1 = ["R"] ∧
    trendsSeries exC5neg 1 ("R") = [-5] ∧ (-5 : ℚ) ≠ 0 := by
  refine ⟨?_, ?_, ?_, by norm_num⟩ <;>
    simp +decide [buildCategoryTrendsChart, trendsTopCats, trendsSeries, trendsFill,
      sumNonTop, addCategoryAmounts, extractMonthCategoryAmounts, exC5neg, setEntry,
      getD, getEntry, List.insertionSort, List.orderedInsert, totalDesc]

/-- Newest-first months: Feb has category A (10), Jan has B (9) and C (2);
three categories across two months, every category total positive. -/
def exC5a : List MonthlyExpense :=
  [⟨"Feb", "", some [("A", ⟨10, 0, none⟩)]⟩,
   ⟨"Jan", "", some [("B", ⟨9, 0, none⟩), ("C", ⟨2, 0, none⟩)]⟩]

/-- As `exC5a` but the non-top category C has zero spend. -/
def exC5b : List MonthlyExpense :=
  [⟨"Feb", "", some [("A", ⟨10, 0, none⟩)]⟩,
   ⟨"Jan", "", some [("B", ⟨9, 0, none⟩), ("C", ⟨0, 0, none⟩)]⟩]

/-- C5 (amended): every returned series has one value per month, aligned to
chronological order (the reverse of the input order); a series name is
returned exactly when it is a selected top category or "Other" and its series
contains a strictly positive value (all-zero and all-nonpositive series are
dropped).  On three categories across two months with `topN = 2` and positive
spend everywhere this yields `topN + 1` series (`topN` when the non-top
category has no positive spend), with values in chronological order. -/
theorem C5_trends_series_shape (ms : List MonthlyExpense) (topN : ℕ) :
    (∀ p ∈ buildCategoryTrendsChart ms topN, p.2.length = ms.length) ∧
    (∀ name : String,
      (∃ s, (name, s) ∈ buildCategoryTrendsChart ms topN) ↔
        ((name ∈ trendsTopCats ms topN ∨ name = "Other") ∧
          ∃ v ∈ trendsSeries ms topN name, 0 < v)) ∧
    (buildCategoryTrendsChart exC5a 2).map (·.1) = ["A", "B", "Other"] ∧
    (buildCategoryTrendsChart exC5b 2).map (·.1) = ["A", "B"] ∧
    trendsSeries exC5a 2 ("A") = [0, 10] := by
  refine ⟨?_, ?_, ?_, ?_, ?_⟩
  · intro p hp
    obtain ⟨n, _, rfl⟩ := List.mem_map.mp hp
    simp [trendsSeries]
  · intro name
    constructor
    · rintro ⟨s, hs⟩
      obtain ⟨n, hn, heq⟩ := List.mem_map.mp hs
      obtain ⟨rfl, -⟩ : n = name ∧ s = trendsSeries ms topN n :=
        ⟨congrArg Prod.fst heq, (congrArg Prod.snd heq).symm⟩
      have hn' := List.mem_filter.mp hn
      refine ⟨?_, ?_⟩
      · rcases List.mem_append.mp hn'.1 with h | h
        · exact Or.inl h
        · exact Or.inr (List.mem_singleton.mp h)
      · obtain ⟨v, hv, hv'⟩ := List.any_eq_true.mp hn'.2
        exact ⟨v, hv, of_decide_eq_true hv'⟩
    · rintro ⟨h1, v, hv, hv'⟩
      refine ⟨trendsSeries ms topN name, List.mem_map.mpr ⟨name, ?_, rfl⟩⟩
      refine List.mem_filter.mpr ⟨?_, ?_⟩
      · rcases h1 with h | h
        · exact List.mem_append.mpr (Or.inl h)
        · exact List.mem_append.mpr (Or.inr (List.mem_singleton.mpr h))
      · exact List.any_eq_true.mpr ⟨v, hv, decide_eq_true hv'⟩
  · simp +decide [buildCategoryTrendsChart, trendsTopCats, trendsSeries, trendsFill,
      sumNonTop, addCategoryAmounts, extractMonthCategoryAmounts, exC5a, setEntry,
      getD, getEntry, List.insertionSort, List.orderedInsert, totalDesc]
  · simp +decide [buildCategoryTrendsChart, trendsTopCats, trendsSeries, trendsFill,
      sumNonTop, addCategoryAmounts, extractMonthCategoryAmounts, exC5b, setEntry,
      getD, getEntry, List.insertionSort, List.orderedInsert, totalDesc]
  · simp +decide [trendsSeries, trendsTopCats, trendsFill, sumNonTop, addCategoryAmounts,
      extractMonthCategoryAmounts, exC5a, setEntry, getD, getEntry,
      List.insertionSort, List.orderedInsert, totalDesc]

theorem C5_trends_series_shape_witness :
    (("Other", trendsSeries exC5a 2 ("Other")) ∈ buildCategoryTrendsChart exC5a 2) ∧
    (trendsSeries exC5a 2 ("Other")).length = exC5a.length := by
  have hmem : ("Other", trendsSeries exC5a 2 ("Other")) ∈ buildCategoryTrendsChart exC5a 2 := by
    simp +decide [buildCategoryTrendsChart, trendsTopCats, trendsSeries, trendsFill,
      sumNonTop, addCategoryAmounts, extractMonthCategoryAmounts, exC5a, setEntry,
      getD, getEntry, List.insertionSort, List.orderedInsert, totalDesc]
  exact ⟨hmem, (C5_trends_series_shape exC5a 2).1 _ hmem⟩

-- -------------------- RecurrenceDetector --------------------

/-- The iteration space of both recurrence scans: every `(categoryName, key,
line)` of every category of every month, in loop order. -/
def txEntries (monthlyExpenses : List MonthlyExpense) :
    List (String × String × String) :=
  monthlyExpenses.flatMap fun m =>
    (m.categories.getD []).flatMap fun c =>
      (c.2.transactions.getD []).map fun t => (c.1, t.1, t.2)

/-- Whitespace-run collapsing (`replace(/\s+/g, " ")`); the flag records
whether the previous character was part of a run. -/
def collapseWsAux : Bool → List Char → List Char
  | _, [] => []
  | inRun, c :: rest =>
    if jsWhitespace c then
      if inRun then collapseWsAux true rest
      else ' ' :: collapseWsAux true rest
    else c :: collapseWsAux false rest

/-- Merchant-name normalization, `name.replace(/\s+/g, " ").trim()`. -/
def normalizeName (s : String) : String :=
  String.mk (jsTrim (collapseWsAux false s.data))

/-- Cent rounding, `Math.round(x * 100) / 100` (amount normalization to EUR cents). -/
def jsRound2 (q : ℚ) : ℚ := (jsRound (q * 100) : ℚ) / 100

/-- JS `Number.prototype.toFixed(2)` on a cent-valued amount: sign, integer
part, `.`, two fraction digits. -/
def toFixed2 (q : ℚ) : List Char :=
  (if jsRound (q * 100) < 0 then ['-'] else []) ++
  natRepr ((jsRound (q * 100)).natAbs / 100) ++ ['.'] ++
  (if (jsRound (q * 100)).natAbs % 100 < 10 then ['0'] else []) ++
  natRepr ((jsRound (q * 100)).natAbs % 100)

/-- The grouping key `${normalizedName}__${amount.toFixed(2)}` of the exact
detector. -/
def mkIdKey (name : String) (amount : ℚ) : String :=
  name ++ "__" ++ String.mk (toFixed2 amount)

/-- What the fuzzy scan derives from one transaction entry — `none` for the
reserved `"on average"` row and unparseable lines, otherwise
`(categoryName, normalizedName, amount)`. -/
def recHit (e : String × String × String) : Option (String × String × ℚ) :=
  if e.2.1 = "on average" then none
  else (parseSummaryLine e.2.2).map fun p => (e.1, normalizeName p.name, p.amount)

/-- As `recHit` but with the amount rounded to cents (exact scan). -/
def idHit (e : String × String × String) : Option (String × String × ℚ) :=
  if e.2.1 = "on average" then none
  else (parseSummaryLine e.2.2).map fun p =>
    (e.1, normalizeName p.name, jsRound2 p.amount)

/-- Accumulator of the fuzzy detector. -/
structure RecStats where
  count : ℕ
  sum : ℚ
  categoryCounts : List (String × ℕ)
deriving DecidableEq

/-- Accumulator of the exact detector. -/
structure IdStats where
  name : String
  amount : ℚ
  count : ℕ
  categoryCounts : List (String × ℕ)
deriving DecidableEq

/-- The common loop body
`const current = stats[key] ?? dflt; …; stats[key] = current`. -/
def groupStep {α σ : Type} (key : α → String) (g : α → σ → σ) (d : α → σ)
    (stats : List (String × σ)) (x : α) : List (String × σ) :=
  setEntry stats (key x) (g x (getD stats (key x) (d x)))

/-- Fuzzy update: `count += 1; sum += amount; categoryCounts[category] += 1`. -/
def recUpd (h : String × String × ℚ) (s : RecStats) : RecStats :=
  ⟨s.count + 1, s.sum + h.2.2,
   setEntry s.categoryCounts h.1 (getD s.categoryCounts h.1 0 + 1)⟩

/-- Exact update: `count += 1; categoryCounts[category] += 1`. -/
def idUpd (h : String × String × ℚ) (s : IdStats) : IdStats :=
  ⟨s.name, s.amount, s.count + 1,
   setEntry s.categoryCounts h.1 (getD s.categoryCounts h.1 0 + 1)⟩

/-- The `stats` object of `computeTopRecurringTransactions` after the scan. -/
def recStatsOf (monthlyExpenses : List MonthlyExpense) : List (String × RecStats) :=
  ((txEntries monthlyExpenses).filterMap recHit).foldl
    (groupStep (fun h => h.2.1) recUpd (fun _ => ⟨0, 0, []⟩)) []

/-- The `stats` object of `computeIdenticalRecurringTransactions` after the
scan; a new group starts from the hit's normalized name and rounded amount. -/
def idStatsOf (monthlyExpenses : List MonthlyExpense) : List (String × IdStats) :=
  ((txEntries monthlyExpenses).filterMap idHit).foldl
    (groupStep (fun h => mkIdKey h.2.1 h.2.2) idUpd (fun h => ⟨h.2.1, h.2.2, 0, []⟩)) []

/-- Order of the category-tally comparator `(a, b) => b[1] - a[1]`. -/
def catCountDesc (a b : String × ℕ) : Prop := b.2 ≤ a.2

instance : DecidableRel catCountDesc :=
  fun a b => inferInstanceAs (Decidable (b.2 ≤ a.2))

/-- Dominant category, `Object.entries(counts).sort((a, b) => b[1] - a[1])[0]?.[0] ?? ""`. -/
def bestCategory (categoryCounts : List (String × ℕ)) : String :=
  (((List.insertionSort catCountDesc categoryCounts).head?).map (·.1)).getD ("")

/-- Derived fuzzy row. -/
structure RecurringTransaction where
  name : String
  category : String
  count : ℕ
  avgAmount : ℚ
  totalAmount : ℚ
deriving DecidableEq

/-- Derived exact row. -/
structure IdenticalRecurringTransaction where
  name : String
  category : String
  amount : ℚ
  count : ℕ
  totalAmount : ℚ
deriving DecidableEq

/-- Order of the fuzzy comparator
`(a, b) => (b.count - a.count) || (b.avgAmount - a.avgAmount)`. -/
def recOrder (a b : RecurringTransaction) : Prop :=
  b.count < a.count ∨ (b.count = a.count ∧ b.avgAmount ≤ a.avgAmount)

instance : DecidableRel recOrder :=
  fun a b => inferInstanceAs
    (Decidable (b.count < a.count ∨ (b.count = a.count ∧ b.avgAmount ≤ a.avgAmount)))

instance : IsTotal RecurringTransaction recOrder := by
  constructor
  intro a b
  rcases lt_trichotomy a.count b.count with h | h | h
  · exact Or.inr (Or.inl h)
  · rcases le_total a.avgAmount b.avgAmount with h2 | h2
    · exact Or.inr (Or.inr ⟨h, h2⟩)
    · exact Or.inl (Or.inr ⟨h.symm, h2⟩)
  · exact Or.inl (Or.inl h)

instance : IsTrans RecurringTransaction recOrder := by
  constructor
  rintro a b c (h1 | ⟨h1, h1'⟩) (h2 | ⟨h2, h2'⟩)
  · exact Or.inl (h2.trans h1)
  · exact Or.inl (h2 ▸ h1)
  · exact Or.inl (h1 ▸ h2)
  · exact Or.inr ⟨h2.trans h1, h2'.trans h1'⟩

/-- Order of the exact comparator
`(a, b) => (b.count - a.count) || (b.amount - a.amount)`. -/
def idOrder (a b : IdenticalRecurringTransaction) : Prop :=
  b.count < a.count ∨ (b.count = a.count ∧ b.amount ≤ a.amount)

instance : DecidableRel idOrder :=
  fun a b => inferInstanceAs
    (Decidable (b.count < a.count ∨ (b.count = a.count ∧ b.amount ≤ a.amount)))

instance : IsTotal IdenticalRecurringTransaction idOrder := by
  constructor
  intro a b
  rcases lt_trichotomy a.count b.count with h | h | h
  · exact Or.inr (Or.inl h)
  · rcases le_total a.amount b.amount with h2 | h2
    · exact Or.inr (Or.inr ⟨h, h2⟩)
    · exact Or.inl (Or.inr ⟨h.symm, h2⟩)
  · exact Or.inl (Or.inl h)

instance : IsTrans IdenticalRecurringTransaction idOrder := by
  constructor
  rintro a b c (h1 | ⟨h1, h1'⟩) (h2 | ⟨h2, h2'⟩)
  · exact Or.inl (h2.trans h1)
  · exact Or.inl (h2 ▸ h1)
  · exact Or.inl (h1 ▸ h2)
  · exact Or.inr ⟨h2.trans h1, h2'.trans h1'⟩

/-- Source `computeTopRecurringTransactions`: map each merchant group to a
row (`avgAmount: s.count ? s.sum / s.count : 0`), sort by descending count
then descending average, truncate to `topN`. -/
def computeTopRecurringTransactions (monthlyExpenses : List MonthlyExpense)
    (topN : ℕ) : List RecurringTransaction :=
  (List.insertionSort recOrder
    ((recStatsOf monthlyExpenses).map fun e =>
      ⟨e.1, bestCategory e.2.categoryCounts, e.2.count,
       if e.2.count = 0 then 0 else e.2.sum / e.2.count, e.2.sum⟩)).take topN

/-- The groups of the exact detector before truncation:
`Object.values(stats).filter(r => r.count >= 2).map(...).sort(...)`. -/
def identicalRecurringGroups (monthlyExpenses : List MonthlyExpense) :
    List IdenticalRecurringTransaction :=
  List.insertionSort idOrder
    ((((idStatsOf monthlyExpenses).map (·.2)).filter fun r => decide (2 ≤ r.count)).map
      fun r => ⟨r.name, bestCategory r.categoryCounts, r.amount, r.count,
        r.amount * r.count⟩)

/-- Source `computeIdenticalRecurringTransactions`. -/
def computeIdenticalRecurringTransactions (monthlyExpenses : List MonthlyExpense)
    (topN : ℕ) : List IdenticalRecurringTransaction :=
  (identicalRecurringGroups monthlyExpenses).take topN

-- -------------------- Grouping-fold characterization --------------------

/-- The value a grouping fold leaves at one key, as a function of the hits
for that key: none without hits, otherwise the update fold seeded by the
default of the first hit (or by a pre-existing entry). -/
def hitsFold {α σ : Type} (g : α → σ → σ) (d : α → σ) :
    Option σ → List α → Option σ
  | some s, hits => some (hits.foldl (fun s x => g x s) s)
  | none, [] => none
  | none, x :: xs => some (xs.foldl (fun s x => g x s) (g x (d x)))

theorem getEntry_foldl_groupStep {α σ : Type} (key : α → String) (g : α → σ → σ)
    (d : α → σ) (l : List α) (stats : List (String × σ)) (k : String) :
    getEntry (l.foldl (groupStep key g d) stats) k =
      hitsFold g d (getEntry stats k) (l.filter fun x => key x == k) := by
  induction l generalizing stats with
  | nil => cases h : getEntry stats k <;> simp [hitsFold, h]
  | cons x xs ih =>
    simp only [List.foldl_cons, List.filter_cons]
    by_cases hk : key x = k
    · subst hk
      simp only [beq_self_eq_true, if_true]
      rw [ih]
      have h1 : getEntry (groupStep key g d stats x) (key x) =
          some (g x (getD stats (key x) (d x))) := getEntry_setEntry_self _ _ _
      rw [h1]
      cases h : getEntry stats (key x) <;> simp [hitsFold, getD, h]
    · have hb : ¬ ((key x == k) = true) := by simpa using hk
      rw [if_neg hb, ih,
        show getEntry (groupStep key g d stats x) k = getEntry stats k from
          getEntry_setEntry_ne _ _ hk]

theorem nodupKeys_groupFold {α σ : Type} (key : α → String) (g : α → σ → σ)
    (d : α → σ) (l : List α) :
    ((l.foldl (groupStep key g d) []).map (·.1)).Nodup :=
  nodupKeys_foldl_setEntry (fun x => key x)
    (fun x m => g x (getD m (key x) (d x))) l [] (by simp)

theorem getEntry_eq_some_of_mem {β : Type} {m : List (String × β)}
    (hnd : (m.map (·.1)).Nodup) {k : String} {v : β} (hm : (k, v) ∈ m) :
    getEntry m k = some v := by
  induction m with
  | nil => cases hm
  | cons e rest ih =>
    simp only [List.map_cons, List.nodup_cons] at hnd
    rcases List.mem_cons.mp hm with rfl | hm'
    · simp [getEntry]
    · have hne : e.1 ≠ k := by
        intro h
        exact hnd.1 (h ▸ (List.mem_map.mpr ⟨(k, v), hm', rfl⟩))
      simp only [getEntry, beq_iff_eq, hne, if_false]
      exact ih hnd.2 hm'

theorem mem_of_getEntry_eq_some {β : Type} {m : List (String × β)} {k : String}
    {v : β} (h : getEntry m k = some v) : (k, v) ∈ m := by
  induction m with
  | nil => simp [getEntry] at h
  | cons e rest ih =>
    by_cases he : e.1 = k
    · simp only [getEntry, beq_iff_eq, he, if_true, Option.some.injEq] at h
      subst he
      subst h
      exact List.mem_cons_self _ _
    · simp only [getEntry, beq_iff_eq, he, if_false] at h
      exact List.mem_cons_of_mem _ (ih h)

theorem count_foldl_recUpd (l : List (String × String × ℚ)) (s : RecStats) :
    (l.foldl (fun s x => recUpd x s) s).count = s.count + l.length := by
  induction l generalizing s with
  | nil => simp
  | cons x xs ih =>
    rw [List.foldl_cons, ih (recUpd x s)]
    simp only [recUpd, List.length_cons]
    omega

theorem count_foldl_idUpd (l : List (String × String × ℚ)) (s : IdStats) :
    (l.foldl (fun s x => idUpd x s) s).count = s.count + l.length := by
  induction l generalizing s with
  | nil => simp
  | cons x xs ih =>
    rw [List.foldl_cons, ih (idUpd x s)]
    simp only [idUpd, List.length_cons]
    omega

theorem name_amount_foldl_idUpd (l : List (String × String × ℚ)) (s : IdStats) :
    (l.foldl (fun s x => idUpd x s) s).name = s.name ∧
    (l.foldl (fun s x => idUpd x s) s).amount = s.amount := by
  induction l generalizing s with
  | nil => exact ⟨rfl, rfl⟩
  | cons x xs ih => simpa [idUpd] using ih (idUpd x s)

-- -------------------- Injectivity of the exact grouping key --------------------

/-- Value of a least-significant-first digit list. -/
def lsdVal : List ℕ → ℕ
  | [] => 0
  | d :: rest => d + 10 * lsdVal rest

theorem lsdDigits_lt_ten : ∀ (fuel n : ℕ), ∀ d ∈ lsdDigits fuel n, d < 10 := by
  intro fuel
  induction fuel with
  | zero => intro n d hd; simp [lsdDigits] at hd
  | succ fuel ih =>
    intro n d hd
    by_cases h : n = 0
    · simp [lsdDigits, h] at hd
    · simp only [lsdDigits, h, if_false, List.mem_cons] at hd
      rcases hd with rfl | hd
      · exact Nat.mod_lt _ (by norm_num)
      · exact ih _ _ hd

theorem lsdVal_lsdDigits : ∀ (fuel n : ℕ), n ≤ fuel → lsdVal (lsdDigits fuel n) = n := by
  intro fuel
  induction fuel with
  | zero =>
    intro n h
    interval_cases n
    simp [lsdDigits, lsdVal]
  | succ fuel ih =>
    intro n h
    by_cases h0 : n = 0
    · simp [lsdDigits, h0, lsdVal]
    · have hlt : n / 10 < n := Nat.div_lt_self (Nat.pos_of_ne_zero h0) (by norm_num)
      have hdiv : n / 10 ≤ fuel := by omega
      simp only [lsdDigits, h0, if_false, lsdVal, ih _ hdiv]
      omega

theorem digitChar_toNat : ∀ d : ℕ, d < 10 → (Char.ofNat (48 + d)).toNat = 48 + d := by
  decide

theorem natRepr_roundtrip (n : ℕ) :
    lsdVal (((natRepr n).map fun c => c.toNat - 48).reverse) = n := by
  unfold natRepr
  by_cases h : n = 0
  · simp [h, lsdVal]
  · simp only [h, if_false, List.map_map, ← List.map_reverse, List.reverse_reverse]
    have hcong : ∀ d ∈ lsdDigits (n + 1) n,
        ((fun c : Char => c.toNat - 48) ∘ fun d => Char.ofNat (48 + d)) d = d := by
      intro d hd
      have hlt := lsdDigits_lt_ten _ _ d hd
      simp [Function.comp, digitChar_toNat d hlt]
    rw [List.map_congr_left hcong, List.map_id', lsdVal_lsdDigits _ _ (by omega)]

theorem natRepr_inj {m n : ℕ} (h : natRepr m = natRepr n) : m = n := by
  have := congrArg (fun cs : List Char =>
    lsdVal ((cs.map fun c => c.toNat - 48).reverse)) h
  simpa [natRepr_roundtrip] using this

theorem natRepr_mem_digit {n : ℕ} {c : Char} (hc : c ∈ natRepr n) :
    48 ≤ c.toNat ∧ c.toNat ≤ 57 := by
  unfold natRepr at hc
  by_cases h : n = 0
  · simp only [h, if_true, List.mem_singleton] at hc
    subst hc
    decide
  · simp only [h, if_false, List.mem_map, List.mem_reverse] at hc
    obtain ⟨d, hd, rfl⟩ := hc
    have hlt := lsdDigits_lt_ten _ _ d hd
    rw [digitChar_toNat d hlt]
    omega

theorem natRepr_ne_nil (n : ℕ) : natRepr n ≠ [] := by
  intro hcon
  have := natRepr_roundtrip n
  rw [hcon] at this
  simp [lsdVal] at this
  subst this
  simp [natRepr] at hcon

theorem fracRepr_roundtrip : ∀ f : ℕ, f < 100 →
    lsdVal ((((if f < 10 then ['0'] else []) ++ natRepr f).map
      fun c => c.toNat - 48).reverse) = f := by
  intro f hf
  by_cases h : f < 10
  · have hsmall : ∀ g : ℕ, g < 10 →
        lsdVal (((['0'] ++ natRepr g).map fun c => c.toNat - 48).reverse) = g := by
      decide
    simpa [h] using hsmall f h
  · simpa [h] using natRepr_roundtrip f

theorem append_marker_eq {mark : Char} :
    ∀ {l1 l2 r1 r2 : List Char}, mark ∉ l1 → mark ∉ l2 →
      l1 ++ mark :: r1 = l2 ++ mark :: r2 → l1 = l2 ∧ r1 = r2 := by
  intro l1
  induction l1 with
  | nil =>
    intro l2 r1 r2 h1 h2 heq
    cases l2 with
    | nil => simpa using heq
    | cons c l2' =>
      simp only [List.nil_append, List.cons_append, List.cons.injEq] at heq
      exact absurd (heq.1 ▸ List.mem_cons_self c l2') h2
  | cons c l1' ih =>
    intro l2 r1 r2 h1 h2 heq
    simp only [List.mem_cons, not_or] at h1
    cases l2 with
    | nil =>
      simp only [List.cons_append, List.nil_append, List.cons.injEq] at heq
      exact absurd heq.1.symm h1.1
    | cons c2 l2' =>
      simp only [List.mem_cons, not_or] at h2
      simp only [List.cons_append, List.cons.injEq] at heq
      obtain ⟨hl, hr⟩ := ih h1.2 h2.2 heq.2
      exact ⟨by rw [heq.1, hl], hr⟩

theorem jsRound_intCast (c : ℤ) : jsRound (c : ℚ) = c := by
  unfold jsRound
  rw [add_comm, Int.floor_add_int]
  have h0 : ⌊(1 : ℚ) / 2⌋ = 0 := by
    rw [Int.floor_eq_iff]
    norm_num
  rw [h0, zero_add]

theorem toFixed2_cents (c : ℤ) :
    toFixed2 ((c : ℚ) / 100) =
      (if c < 0 then ['-'] else []) ++ (natRepr (c.natAbs / 100) ++ '.' ::
      ((if c.natAbs % 100 < 10 then ['0'] else []) ++ natRepr (c.natAbs % 100))) := by
  unfold toFixed2
  have h1 : jsRound ((c : ℚ) / 100 * 100) = c := by
    rw [div_mul_cancel₀ _ (by norm_num : (100 : ℚ) ≠ 0)]
    exact jsRound_intCast c
  rw [h1]
  simp [List.append_assoc]

theorem dot_not_mem_natRepr (n : ℕ) : '.' ∉ natRepr n := by
  intro h
  have := natRepr_mem_digit h
  revert this
  decide

theorem toFixed2_cents_inj {c1 c2 : ℤ}
    (h : toFixed2 ((c1 : ℚ) / 100) = toFixed2 ((c2 : ℚ) / 100)) : c1 = c2 := by
  rw [toFixed2_cents, toFixed2_cents] at h
  have hsign : (c1 < 0 ↔ c2 < 0) := by
    constructor <;> intro hcn <;> by_contra hcp
    · rw [if_pos hcn, if_neg hcp] at h
      obtain ⟨d, rest, hd⟩ := List.exists_cons_of_ne_nil (natRepr_ne_nil (c2.natAbs / 100))
      have hh := congrArg List.head? h
      rw [hd] at hh
      simp only [List.nil_append, List.cons_append, List.head?_cons] at hh
      have hdig : 48 ≤ d.toNat ∧ d.toNat ≤ 57 :=
        natRepr_mem_digit (hd ▸ List.mem_cons_self d rest)
      have : ('-' : Char) = d := by simpa using hh
      rw [← this] at hdig
      revert hdig
      decide
    · rw [if_neg hcp, if_pos hcn] at h
      obtain ⟨d, rest, hd⟩ := List.exists_cons_of_ne_nil (natRepr_ne_nil (c1.natAbs / 100))
      have hh := congrArg List.head? h
      rw [hd] at hh
      simp only [List.nil_append, List.cons_append, List.head?_cons] at hh
      have hdig : 48 ≤ d.toNat ∧ d.toNat ≤ 57 :=
        natRepr_mem_digit (hd ▸ List.mem_cons_self d rest)
      have : d = ('-' : Char) := by simpa using hh
      rw [this] at hdig
      revert hdig
      decide
  have htail : natRepr (c1.natAbs / 100) ++ '.' ::
      ((if c1.natAbs % 100 < 10 then ['0'] else []) ++ natRepr (c1.natAbs % 100)) =
      natRepr (c2.natAbs / 100) ++ '.' ::
      ((if c2.natAbs % 100 < 10 then ['0'] else []) ++ natRepr (c2.natAbs % 100)) := by
    by_cases hc1 : c1 < 0
    · have hc2 := hsign.mp hc1
      rw [if_pos hc1, if_pos hc2] at h
      simpa using h
    · have hc2 : ¬ c2 < 0 := fun h2 => hc1 (hsign.mpr h2)
      rw [if_neg hc1, if_neg hc2] at h
      simpa using h
  obtain ⟨hip, hfrac⟩ := append_marker_eq (dot_not_mem_natRepr _) (dot_not_mem_natRepr _) htail
  have hipv : c1.natAbs / 100 = c2.natAbs / 100 := natRepr_inj hip
  have hfv : c1.natAbs % 100 = c2.natAbs % 100 := by
    have r1 := fracRepr_roundtrip (c1.natAbs % 100) (Nat.mod_lt _ (by norm_num))
    have r2 := fracRepr_roundtrip (c2.natAbs % 100) (Nat.mod_lt _ (by norm_num))
    rw [← r1, ← r2, hfrac]
  have habs : c1.natAbs = c2.natAbs := by omega
  by_cases hc1 : c1 < 0
  · have hc2 := hsign.mp hc1
    have e1 : ((c1.natAbs : ℤ)) = -c1 := Int.ofNat_natAbs_of_nonpos (le_of_lt hc1)
    have e2 : ((c2.natAbs : ℤ)) = -c2 := Int.ofNat_natAbs_of_nonpos (le_of_lt hc2)
    omega
  · have hc2 := fun h2 => hc1 (hsign.mpr h2)
    have e1 : ((c1.natAbs : ℤ)) = c1 := Int.natAbs_of_nonneg (le_of_not_lt hc1)
    have e2 : ((c2.natAbs : ℤ)) = c2 := Int.natAbs_of_nonneg (le_of_not_lt hc2)
    omega

theorem underscore_not_mem_toFixed2_cents (c : ℤ) :
    '_' ∉ toFixed2 ((c : ℚ) / 100) := by
  rw [toFixed2_cents]
  intro hmem
  rcases List.mem_append.mp hmem with h | h
  · by_cases hc : c < 0
    · rw [if_pos hc] at h
      revert h
      decide
    · rw [if_neg hc] at h
      cases h
  · rcases List.mem_append.mp h with h | h
    · exact absurd (natRepr_mem_digit h) (by decide)
    · rcases List.mem_cons.mp h with h | h
      · exact absurd h (by decide)
      · rcases List.mem_append.mp h with h | h
        · by_cases hf : c.natAbs % 100 < 10
          · rw [if_pos hf] at h
            revert h
            decide
          · rw [if_neg hf] at h
            cases h
        · exact absurd (natRepr_mem_digit h) (by decide)

theorem mkIdKey_cents_inj {n1 n2 : String} {c1 c2 : ℤ}
    (h : mkIdKey n1 ((c1 : ℚ) / 100) = mkIdKey n2 ((c2 : ℚ) / 100)) :
    n1 = n2 ∧ c1 = c2 := by
  unfold mkIdKey at h
  have hdata := congrArg String.data h
  simp only [String.data_append] at hdata
  have hrev := congrArg List.reverse hdata
  simp only [List.reverse_append, List.reverse_cons, List.reverse_nil,
    List.nil_append, List.append_assoc, List.cons_append] at hrev
  have hsplit := append_marker_eq
    (fun hm => underscore_not_mem_toFixed2_cents c1 (List.mem_reverse.mp hm))
    (fun hm => underscore_not_mem_toFixed2_cents c2 (List.mem_reverse.mp hm))
    hrev
  have hfix : toFixed2 ((c1 : ℚ) / 100) = toFixed2 ((c2 : ℚ) / 100) :=
    List.reverse_injective hsplit.1
  have hname : n1.data = n2.data :=
    List.reverse_injective (List.cons_injective hsplit.2)
  refine ⟨?_, toFixed2_cents_inj hfix⟩
  cases n1
  cases n2
  exact congrArg String.mk hname

-- -------------------- Stats characterization --------------------

/-- Multiplicity of the pair (normalized merchant name, cents-rounded amount)
among the parseable, non-reserved transaction lines. -/
def idOccurrences (ms : List MonthlyExpense) (n : String) (a : ℚ) : ℕ :=
  (((txEntries ms).filterMap idHit).filter
    fun x => decide (x.2.1 = n ∧ x.2.2 = a)).length

theorem idHit_amount_cents {e : String × String × String} {x : String × String × ℚ}
    (h : idHit e = some x) : ∃ c : ℤ, x.2.2 = (c : ℚ) / 100 := by
  unfold idHit at h
  by_cases hres : e.2.1 = "on average"
  · simp [hres] at h
  · simp only [hres, if_false, Option.map_eq_some'] at h
    obtain ⟨p, _, rfl⟩ := h
    exact ⟨jsRound (p.amount * 100), rfl⟩

theorem mem_idHits_cents {ms : List MonthlyExpense} {x : String × String × ℚ}
    (hx : x ∈ (txEntries ms).filterMap idHit) : ∃ c : ℤ, x.2.2 = (c : ℚ) / 100 := by
  obtain ⟨e, _, he⟩ := List.mem_filterMap.mp hx
  exact idHit_amount_cents he

theorem filter_key_eq_filter_pair (ms : List MonthlyExpense) (n : String) (a : ℚ)
    (ca : ℤ) (ha : a = (ca : ℚ) / 100) :
    (((txEntries ms).filterMap idHit).filter
      fun x => mkIdKey x.2.1 x.2.2 == mkIdKey n a) =
    (((txEntries ms).filterMap idHit).filter
      fun x => decide (x.2.1 = n ∧ x.2.2 = a)) := by
  apply List.filter_congr
  intro x hx
  obtain ⟨cx, hcx⟩ := mem_idHits_cents hx
  have himp : mkIdKey x.2.1 x.2.2 = mkIdKey n a → x.2.1 = n ∧ x.2.2 = a := by
    intro hk
    rw [hcx, ha] at hk
    obtain ⟨h1, h2⟩ := mkIdKey_cents_inj hk
    exact ⟨h1, by rw [hcx, ha, h2]⟩
  by_cases hp : x.2.1 = n ∧ x.2.2 = a
  · have hk : mkIdKey x.2.1 x.2.2 = mkIdKey n a := by rw [hp.1, hp.2]
    simp [hk, hp]
  · have hk : mkIdKey x.2.1 x.2.2 ≠ mkIdKey n a := fun hkk => hp (himp hkk)
    simp [hk, hp]

theorem idStatsOf_entry_spec {ms : List MonthlyExpense} {k : String} {s : IdStats}
    (h : (k, s) ∈ idStatsOf ms) :
    k = mkIdKey s.name s.amount ∧
    s.count = (((txEntries ms).filterMap idHit).filter
      fun x => mkIdKey x.2.1 x.2.2 == k).length ∧
    (∃ c : ℤ, s.amount = (c : ℚ) / 100) ∧ 1 ≤ s.count := by
  have hnd : ((idStatsOf ms).map (·.1)).Nodup :=
    nodupKeys_groupFold (fun x : String × String × ℚ => mkIdKey x.2.1 x.2.2) idUpd
      (fun x : String × String × ℚ => ⟨x.2.1, x.2.2, 0, []⟩)
      ((txEntries ms).filterMap idHit)
  have hget : getEntry (idStatsOf ms) k = some s := getEntry_eq_some_of_mem hnd h
  rw [show idStatsOf ms = ((txEntries ms).filterMap idHit).foldl
      (groupStep (fun h => mkIdKey h.2.1 h.2.2) idUpd
        (fun h => ⟨h.2.1, h.2.2, 0, []⟩)) [] from rfl,
    getEntry_foldl_groupStep] at hget
  cases hfil : ((txEntries ms).filterMap idHit).filter
      (fun x => mkIdKey x.2.1 x.2.2 == k) with
  | nil =>
    rw [hfil] at hget
    simp [hitsFold, getEntry] at hget
  | cons x xs =>
    rw [hfil] at hget
    have hs : xs.foldl (fun s x => idUpd x s)
        (idUpd x ⟨x.2.1, x.2.2, 0, []⟩) = s := by
      simpa [hitsFold, getEntry] using hget
    have hxmem : x ∈ ((txEntries ms).filterMap idHit).filter
        (fun x => mkIdKey x.2.1 x.2.2 == k) := by
      rw [hfil]
      exact List.mem_cons_self _ _
    have hxf := List.mem_filter.mp hxmem
    have hxkey : mkIdKey x.2.1 x.2.2 = k := by simpa using hxf.2
    have hna := name_amount_foldl_idUpd xs (idUpd x ⟨x.2.1, x.2.2, 0, []⟩)
    have hname : s.name = x.2.1 := by rw [← hs]; exact hna.1
    have hamount : s.amount = x.2.2 := by rw [← hs]; exact hna.2
    have hcnt : s.count = xs.length + 1 := by
      rw [← hs, count_foldl_idUpd]
      simp [idUpd]
      omega
    refine ⟨by rw [hname, hamount, hxkey], ?_, ?_, by omega⟩
    · simp only [List.length_cons]
      omega
    · obtain ⟨c, hc⟩ := mem_idHits_cents hxf.1
      exact ⟨c, by rw [hamount, hc]⟩

theorem recStatsOf_entry_count {ms : List MonthlyExpense} {k : String}
    {s : RecStats} (h : (k, s) ∈ recStatsOf ms) : 1 ≤ s.count := by
  have hnd : ((recStatsOf ms).map (·.1)).Nodup :=
    nodupKeys_groupFold (fun x : String × String × ℚ => x.2.1) recUpd
      (fun _ : String × String × ℚ => ⟨0, 0, []⟩) ((txEntries ms).filterMap recHit)
  have hget : getEntry (recStatsOf ms) k = some s := getEntry_eq_some_of_mem hnd h
  rw [show recStatsOf ms = ((txEntries ms).filterMap recHit).foldl
      (groupStep (fun h => h.2.1) recUpd (fun _ => ⟨0, 0, []⟩)) [] from rfl,
    getEntry_foldl_groupStep] at hget
  cases hfil : ((txEntries ms).filterMap recHit).filter
      (fun x => x.2.1 == k) with
  | nil =>
    rw [hfil] at hget
    simp [hitsFold, getEntry] at hget
  | cons x xs =>
    rw [hfil] at hget
    have hs : xs.foldl (fun s x => recUpd x s) (recUpd x ⟨0, 0, []⟩) = s := by
      simpa [hitsFold, getEntry] using hget
    have : s.count = xs.length + 1 := by
      rw [← hs, count_foldl_recUpd]
      simp [recUpd]
      omega
    omega

/-- C8: the fuzzy recurring list is sorted by descending count with ties by
descending average amount, has at most `topN` rows, and every row's average
is its accumulated sum divided by its count (the sum being `totalAmount`). -/
theorem C8_topRecurring_sorted_truncated_avg (ms : List MonthlyExpense) (topN : ℕ) :
    List.Sorted recOrder (computeTopRecurringTransactions ms topN) ∧
    (computeTopRecurringTransactions ms topN).length ≤ topN ∧
    ∀ r ∈ computeTopRecurringTransactions ms topN,
      1 ≤ r.count ∧ r.avgAmount = r.totalAmount / r.count := by
  refine ⟨?_, ?_, ?_⟩
  · exact List.Pairwise.sublist (List.take_sublist _ _)
      (List.sorted_insertionSort recOrder _)
  · unfold computeTopRecurringTransactions
    exact List.length_take_le _ _
  · intro r hr
    have hr1 : r ∈ List.insertionSort recOrder
        ((recStatsOf ms).map fun e =>
          (⟨e.1, bestCategory e.2.categoryCounts, e.2.count,
            if e.2.count = 0 then 0 else e.2.sum / e.2.count, e.2.sum⟩ :
            RecurringTransaction)) :=
      (List.take_sublist _ _).mem hr
    have hr2 := (List.perm_insertionSort recOrder _).mem_iff.mp hr1
    obtain ⟨⟨k, st⟩, he, rfl⟩ := List.mem_map.mp hr2
    have hcnt : 1 ≤ st.count := recStatsOf_entry_count he
    have hne : ¬ st.count = 0 := by omega
    exact ⟨hcnt, by simp [hne]⟩

/-- Dataset for the C8 witness: one month, one category, two parseable lines
for the same merchant. -/
def exC8 : List MonthlyExpense :=
  [⟨"Jan 2026", "30 euros", some [("Food",
    ⟨30, 0, some [("1", "spent 10 euros in Lidl on Mon Jan 05 2026"),
                  ("2", "spent 20 euros in Lidl on Mon Jan 12 2026")]⟩)]⟩]

theorem identicalRecurringGroups_mem_iff (ms : List MonthlyExpense)
    (n : String) (a : ℚ) :
    (∃ r ∈ identicalRecurringGroups ms, r.name = n ∧ r.amount = a ∧
      r.count = idOccurrences ms n a) ↔ 2 ≤ idOccurrences ms n a := by
  constructor
  · rintro ⟨r, hr, _, _, hc⟩
    have hr2 := (List.perm_insertionSort idOrder _).mem_iff.mp hr
    obtain ⟨st, hst, rfl⟩ := List.mem_map.mp hr2
    have hstf := List.mem_filter.mp hst
    have h2 : 2 ≤ st.count := by simpa using hstf.2
    simp only at hc
    omega
  · intro h2
    have hpos : 0 < idOccurrences ms n a := by omega
    obtain ⟨x, hxmem⟩ : ∃ x, x ∈ ((txEntries ms).filterMap idHit).filter
        (fun x => decide (x.2.1 = n ∧ x.2.2 = a)) := by
      have : ((txEntries ms).filterMap idHit).filter
          (fun x => decide (x.2.1 = n ∧ x.2.2 = a)) ≠ [] := by
        intro hnil
        unfold idOccurrences at hpos
        rw [hnil] at hpos
        simp at hpos
      obtain ⟨y, hy⟩ := List.exists_mem_of_ne_nil _ this
      exact ⟨y, hy⟩
    have hxf := List.mem_filter.mp hxmem
    have hpair : x.2.1 = n ∧ x.2.2 = a := by simpa using hxf.2
    obtain ⟨ca, hca⟩ := mem_idHits_cents hxf.1
    have ha_cents : a = (ca : ℚ) / 100 := by rw [← hpair.2]; exact hca
    have hfeq := filter_key_eq_filter_pair ms n a ca ha_cents
    have hkey_ne : ((txEntries ms).filterMap idHit).filter
        (fun x => mkIdKey x.2.1 x.2.2 == mkIdKey n a) ≠ [] := by
      rw [hfeq]
      exact List.ne_nil_of_mem hxmem
    have hform : getEntry (idStatsOf ms) (mkIdKey n a) =
        hitsFold idUpd (fun x : String × String × ℚ => ⟨x.2.1, x.2.2, 0, []⟩)
          none (((txEntries ms).filterMap idHit).filter
            fun x => mkIdKey x.2.1 x.2.2 == mkIdKey n a) := by
      rw [show idStatsOf ms = ((txEntries ms).filterMap idHit).foldl
          (groupStep (fun x : String × String × ℚ => mkIdKey x.2.1 x.2.2) idUpd
            (fun x : String × String × ℚ => ⟨x.2.1, x.2.2, 0, []⟩)) [] from rfl,
        getEntry_foldl_groupStep]
      rfl
    obtain ⟨s, hs⟩ : ∃ s, getEntry (idStatsOf ms) (mkIdKey n a) = some s := by
      rw [hform]
      cases hcc : ((txEntries ms).filterMap idHit).filter
          (fun x => mkIdKey x.2.1 x.2.2 == mkIdKey n a) with
      | nil => exact absurd hcc hkey_ne
      | cons y ys => exact ⟨_, rfl⟩
    have hmem : (mkIdKey n a, s) ∈ idStatsOf ms := mem_of_getEntry_eq_some hs
    obtain ⟨hkeq, hcount, ⟨cs, hcs⟩, -⟩ := idStatsOf_entry_spec hmem
    have hkk : mkIdKey s.name ((cs : ℚ) / 100) = mkIdKey n ((ca : ℚ) / 100) := by
      rw [← hcs, ← hkeq, ha_cents]
    obtain ⟨hsn, hcc_eq⟩ := mkIdKey_cents_inj hkk
    have hsa : s.amount = a := by rw [hcs, hcc_eq, ← ha_cents]
    have hcnt : s.count = idOccurrences ms n a := by
      rw [hcount, hfeq]
      rfl
    have h2' : 2 ≤ s.count := by omega
    refine ⟨⟨s.name, bestCategory s.categoryCounts, s.amount, s.count,
      s.amount * s.count⟩, ?_, hsn, hsa, by simpa using hcnt⟩
    unfold identicalRecurringGroups
    rw [(List.perm_insertionSort idOrder _).mem_iff]
    apply List.mem_map.mpr
    refine ⟨s, ?_, rfl⟩
    apply List.mem_filter.mpr
    refine ⟨?_, by simpa using h2'⟩
    exact List.mem_map.mpr ⟨(mkIdKey n a, s), hmem, rfl⟩

theorem exC8_parse1 :
    parseSummaryLine ("spent 10 euros in Lidl on Mon Jan 05 2026") =
      some ⟨"Lidl", (10 : ℚ)⟩ := by
  simp +decide [parseSummaryLine, findSpentAmount, spentMatchAt, matchCI, spanP,
    digitsToNat, findFrom, findLastFrom, jsTrim, jsWhitespace]

theorem exC8_parse2 :
    parseSummaryLine ("spent 20 euros in Lidl on Mon Jan 12 2026") =
      some ⟨"Lidl", (20 : ℚ)⟩ := by
  simp +decide [parseSummaryLine, findSpentAmount, spentMatchAt, matchCI, spanP,
    digitsToNat, findFrom, findLastFrom, jsTrim, jsWhitespace]

theorem exC8_recHit1 :
    recHit ("Food", "1", "spent 10 euros in Lidl on Mon Jan 05 2026") =
      some ("Food", "Lidl", (10 : ℚ)) := by
  norm_num +decide [recHit, exC8_parse1, normalizeName, collapseWsAux, jsTrim,
    jsWhitespace]

theorem exC8_recHit2 :
    recHit ("Food", "2", "spent 20 euros in Lidl on Mon Jan 12 2026") =
      some ("Food", "Lidl", (20 : ℚ)) := by
  norm_num +decide [recHit, exC8_parse2, normalizeName, collapseWsAux, jsTrim,
    jsWhitespace]

theorem exC8_hits : (txEntries exC8).filterMap recHit =
    [("Food", "Lidl", (10 : ℚ)), ("Food", "Lidl", (20 : ℚ))] := by
  simp only [txEntries, exC8, Option.getD_some, List.flatMap_cons, List.flatMap_nil,
    List.map_cons, List.map_nil, List.append_nil, List.nil_append, List.cons_append,
    List.filterMap_cons, List.filterMap_nil, exC8_recHit1, exC8_recHit2]

theorem exC8_stats : recStatsOf exC8 = [("Lidl", ⟨2, 30, [("Food", 2)]⟩)] := by
  rw [show recStatsOf exC8 = ((txEntries exC8).filterMap recHit).foldl
      (groupStep (fun x : String × String × ℚ => x.2.1) recUpd
        (fun _ : String × String × ℚ => ⟨0, 0, []⟩)) [] from rfl, exC8_hits]
  simp only [List.foldl_cons, List.foldl_nil, groupStep, recUpd, setEntry, getD,
    getEntry]
  norm_num +decide

theorem exC8_result : computeTopRecurringTransactions exC8 10 =
    [⟨"Lidl", "Food", 2, 15, 30⟩] := by
  unfold computeTopRecurringTransactions
  rw [exC8_stats]
  norm_num +decide [bestCategory, catCountDesc, List.insertionSort,
    List.orderedInsert, recOrder]

theorem C8_topRecurring_sorted_truncated_avg_witness :
    (⟨"Lidl", "Food", 2, 15, 30⟩ ∈ computeTopRecurringTransactions exC8 10) ∧
    1 ≤ (⟨"Lidl", "Food", 2, 15, 30⟩ : RecurringTransaction).count ∧
    (⟨"Lidl", "Food", 2, 15, 30⟩ : RecurringTransaction).avgAmount =
      (⟨"Lidl", "Food", 2, 15, 30⟩ : RecurringTransaction).totalAmount /
        (⟨"Lidl", "Food", 2, 15, 30⟩ : RecurringTransaction).count := by
  have hmem : (⟨"Lidl", "Food", 2, 15, 30⟩ : RecurringTransaction) ∈
      computeTopRecurringTransactions exC8 10 := by
    rw [exC8_result]
    exact List.mem_singleton.mpr rfl
  exact ⟨hmem, (C8_topRecurring_sorted_truncated_avg exC8 10).2.2 _ hmem⟩

/-- Newest-first months: "Netflix 12.99" in three months, "Spotify 9.99" in
one month only. -/
def exC4 : List MonthlyExpense :=
  [⟨"Mar 2026", "", some [("Entertainment", ⟨1299/100, 0,
      some [("1", "spent 12.99 euros in Netflix on Mon Mar 02 2026")]⟩)]⟩,
   ⟨"Feb 2026", "", some [("Entertainment", ⟨1299/100, 0,
      some [("1", "spent 12.99 euros in Netflix on Mon Feb 02 2026")]⟩)]⟩,
   ⟨"Jan 2026", "", some [("Entertainment", ⟨2298/100, 0,
      some [("1", "spent 12.99 euros in Netflix on Mon Jan 05 2026"),
            ("2", "spent 9.99 euros in Spotify on Mon Jan 12 2026")]⟩)]⟩]

theorem jsRound_1299 : jsRound ((1299 : ℚ)) = 1299 := by
  have h := jsRound_intCast 1299
  simpa using h

theorem jsRound_999 : jsRound ((999 : ℚ)) = 999 := by
  have h := jsRound_intCast 999
  simpa using h

theorem exC4_parse_netflix1 :
    parseSummaryLine ("spent 12.99 euros in Netflix on Mon Mar 02 2026") =
      some ⟨"Netflix", 1299/100⟩ := by
  simp +decide [parseSummaryLine, findSpentAmount, spentMatchAt, matchCI, spanP,
    digitsToNat, findFrom, findLastFrom, jsTrim, jsWhitespace]
  norm_num

theorem exC4_parse_netflix2 :
    parseSummaryLine ("spent 12.99 euros in Netflix on Mon Feb 02 2026") =
      some ⟨"Netflix", 1299/100⟩ := by
  simp +decide [parseSummaryLine, findSpentAmount, spentMatchAt, matchCI, spanP,
    digitsToNat, findFrom, findLastFrom, jsTrim, jsWhitespace]
  norm_num

theorem exC4_parse_netflix3 :
    parseSummaryLine ("spent 12.99 euros in Netflix on Mon Jan 05 2026") =
      some ⟨"Netflix", 1299/100⟩ := by
  simp +decide [parseSummaryLine, findSpentAmount, spentMatchAt, matchCI, spanP,
    digitsToNat, findFrom, findLastFrom, jsTrim, jsWhitespace]
  norm_num

theorem exC4_parse_spotify :
    parseSummaryLine ("spent 9.99 euros in Spotify on Mon Jan 12 2026") =
      some ⟨"Spotify", 999/100⟩ := by
  simp +decide [parseSummaryLine, findSpentAmount, spentMatchAt, matchCI, spanP,
    digitsToNat, findFrom, findLastFrom, jsTrim, jsWhitespace]
  norm_num

theorem exC4_idHit1 :
    idHit ("Entertainment", "1", "spent 12.99 euros in Netflix on Mon Mar 02 2026") =
      some ("Entertainment", "Netflix", 1299/100) := by
  norm_num +decide [idHit, exC4_parse_netflix1, normalizeName, collapseWsAux, jsTrim,
    jsWhitespace, jsRound2, jsRound_1299]

theorem exC4_idHit2 :
    idHit ("Entertainment", "1", "spent 12.99 euros in Netflix on Mon Feb 02 2026") =
      some ("Entertainment", "Netflix", 1299/100) := by
  norm_num +decide [idHit, exC4_parse_netflix2, normalizeName, collapseWsAux, jsTrim,
    jsWhitespace, jsRound2, jsRound_1299]

theorem exC4_idHit3 :
    idHit ("Entertainment", "1", "spent 12.99 euros in Netflix on Mon Jan 05 2026") =
      some ("Entertainment", "Netflix", 1299/100) := by
  norm_num +decide [idHit, exC4_parse_netflix3, normalizeName, collapseWsAux, jsTrim,
    jsWhitespace, jsRound2, jsRound_1299]

theorem exC4_idHit4 :
    idHit ("Entertainment", "2", "spent 9.99 euros in Spotify on Mon Jan 12 2026") =
      some ("Entertainment", "Spotify", 999/100) := by
  norm_num +decide [idHit, exC4_parse_spotify, normalizeName, collapseWsAux, jsTrim,
    jsWhitespace, jsRound2, jsRound_999]

theorem exC4_hits : (txEntries exC4).filterMap idHit =
    [("Entertainment", "Netflix", 1299/100), ("Entertainment", "Netflix", 1299/100),
     ("Entertainment", "Netflix", 1299/100), ("Entertainment", "Spotify", 999/100)] := by
  simp only [txEntries, exC4, Option.getD_some, List.flatMap_cons, List.flatMap_nil,
    List.map_cons, List.map_nil, List.append_nil, List.nil_append, List.cons_append,
    List.filterMap_cons, List.filterMap_nil, exC4_idHit1, exC4_idHit2, exC4_idHit3,
    exC4_idHit4]

theorem mkIdKey_netflix : mkIdKey ("Netflix") ((1299 : ℚ)/100) = "Netflix__12.99" := by
  norm_num +decide [mkIdKey, toFixed2, jsRound_1299, natRepr, lsdDigits]

theorem mkIdKey_spotify : mkIdKey ("Spotify") ((999 : ℚ)/100) = "Spotify__9.99" := by
  norm_num +decide [mkIdKey, toFixed2, jsRound_999, natRepr, lsdDigits]

theorem exC4_stats : idStatsOf exC4 =
    [("Netflix__12.99", ⟨"Netflix", 1299/100, 3, [("Entertainment", 3)]⟩),
     ("Spotify__9.99", ⟨"Spotify", 999/100, 1, [("Entertainment", 1)]⟩)] := by
  rw [show idStatsOf exC4 = ((txEntries exC4).filterMap idHit).foldl
      (groupStep (fun x : String × String × ℚ => mkIdKey x.2.1 x.2.2) idUpd
        (fun x : String × String × ℚ => ⟨x.2.1, x.2.2, 0, []⟩)) [] from rfl, exC4_hits]
  simp only [List.foldl_cons, List.foldl_nil, groupStep, idUpd, setEntry, getD,
    getEntry, mkIdKey_netflix, mkIdKey_spotify]
  norm_num +decide

theorem exC4_result : computeIdenticalRecurringTransactions exC4 10 =
    [⟨"Netflix", "Entertainment", 1299/100, 3, 3897/100⟩] := by
  norm_num +decide [computeIdenticalRecurringTransactions, identicalRecurringGroups,
    exC4_stats, bestCategory, catCountDesc, List.insertionSort, List.orderedInsert,
    idOrder]

/-- C4: every returned exact-recurring row has `count ≥ 2` and
`totalAmount = amount × count`; before `topN` truncation a row exists for a
(normalized name, cents-rounded amount) pair exactly when the pair occurs at
least twice among the parseable, non-reserved transaction lines (the row's
count being that multiplicity); and on the Netflix/Spotify dataset only
Netflix is reported. -/
theorem C4_identical_recurring_pairs (ms : List MonthlyExpense) (topN : ℕ) :
    (∀ r ∈ computeIdenticalRecurringTransactions ms topN,
      2 ≤ r.count ∧ r.totalAmount = r.amount * r.count) ∧
    (∀ (n : String) (a : ℚ),
      (∃ r ∈ identicalRecurringGroups ms, r.name = n ∧ r.amount = a ∧
        r.count = idOccurrences ms n a) ↔ 2 ≤ idOccurrences ms n a) ∧
    computeIdenticalRecurringTransactions exC4 10 =
      [⟨"Netflix", "Entertainment", 1299/100, 3, 3897/100⟩] := by
  refine ⟨?_, fun n a => identicalRecurringGroups_mem_iff ms n a, ?_⟩
  · intro r hr
    have hr1 : r ∈ identicalRecurringGroups ms := (List.take_sublist _ _).mem hr
    have hr2 := (List.perm_insertionSort idOrder _).mem_iff.mp hr1
    obtain ⟨st, hst, rfl⟩ := List.mem_map.mp hr2
    have hstf := List.mem_filter.mp hst
    have h2 : 2 ≤ st.count := by simpa using hstf.2
    exact ⟨h2, rfl⟩
  · exact exC4_result

theorem C4_identical_recurring_pairs_witness :
    ((⟨"Netflix", "Entertainment", 1299/100, 3, 3897/100⟩ :
      IdenticalRecurringTransaction) ∈ computeIdenticalRecurringTransactions exC4 10) ∧
    2 ≤ (⟨"Netflix", "Entertainment", 1299/100, 3, 3897/100⟩ :
      IdenticalRecurringTransaction).count ∧
    (⟨"Netflix", "Entertainment", 1299/100, 3, 3897/100⟩ :
      IdenticalRecurringTransaction).totalAmount =
      (⟨"Netflix", "Entertainment", 1299/100, 3, 3897/100⟩ :
        IdenticalRecurringTransaction).amount *
      (⟨"Netflix", "Entertainment", 1299/100, 3, 3897/100⟩ :
        IdenticalRecurringTransaction).count := by
  have hmem : (⟨"Netflix", "Entertainment", 1299/100, 3, 3897/100⟩ :
      IdenticalRecurringTransaction) ∈ computeIdenticalRecurringTransactions exC4 10 := by
    rw [exC4_result]
    exact List.mem_singleton.mpr rfl
  exact ⟨hmem, (C4_identical_recurring_pairs exC4 10).1 _ hmem⟩

/-- C9: every derivation is a pure function of the snapshot and its explicit
parameters: structurally equal inputs give structurally identical outputs,
with no state retained between invocations. -/
theorem C9_derivations_deterministic (ms1 ms2 : List MonthlyExpense)
    (sel1 sel2 : String) (n1 n2 : ℕ) (hms : ms1 = ms2) (hsel : sel1 = sel2)
    (hn : n1 = n2) :
    computePeriodCategoryPercentages ms1 = computePeriodCategoryPercentages ms2 ∧
    computeMonthCategoryPercentages ms1 sel1 = computeMonthCategoryPercentages ms2 sel2 ∧
    buildCategoryColorMap ms1 = buildCategoryColorMap ms2 ∧
    buildCategoryTrendsChart ms1 n1 = buildCategoryTrendsChart ms2 n2 ∧
    computeTopRecurringTransactions ms1 n1 = computeTopRecurringTransactions ms2 n2 ∧
    computeIdenticalRecurringTransactions ms1 n1 =
      computeIdenticalRecurringTransactions ms2 n2 := by
  subst hms
  subst hsel
  subst hn
  exact ⟨rfl, rfl, rfl, rfl, rfl, rfl⟩

theorem C9_derivations_deterministic_witness :
    computePeriodCategoryPercentages exC1 = computePeriodCategoryPercentages exC1 ∧
    computeMonthCategoryPercentages exC1 ("Dec 2025") =
      computeMonthCategoryPercentages exC1 ("Dec 2025") ∧
    buildCategoryColorMap exC1 = buildCategoryColorMap exC1 ∧
    buildCategoryTrendsChart exC1 3 = buildCategoryTrendsChart exC1 3 ∧
    computeTopRecurringTransactions exC1 3 = computeTopRecurringTransactions exC1 3 ∧
    computeIdenticalRecurringTransactions exC1 3 =
      computeIdenticalRecurringTransactions exC1 3 :=
  C9_derivations_deterministic exC1 exC1 ("Dec 2025") ("Dec 2025") 3 3 rfl rfl rfl
